import Mathlib

/-!
# Portfolio dashboard (`src/App.jsx`): valuation and market-data synchronisation

A shallow embedding of the computational core of `PortfolioDashboard`.

Number model. JavaScript numbers that the program stores (quantities, prices,
percent changes) are modelled by rationals. The only places where the program
can leave the finite numbers are its divisions and `Math.max()` /
`Math.min()`, whose results are modelled by `JSNum`, which adds `Infinity`,
`-Infinity` and `NaN` to the rationals. Strings produced by `toFixed` are
modelled by the number they denote.

The arithmetic of the program is read twice. In the exact reading (the
definitions without a namespace prefix) `+`, `-`, `*` and `/` are the exact
operations; it carries the properties that do not depend on rounding: which
quotes, holdings and branches there are, signs, sums of values, and division
by zero. In the double-precision reading (the definitions of the namespace
`Double`) every operation is rounded to the nearest binary64 number; it
carries the properties that depend on rounding: sums of quotients, the digits
that `toFixed` shows after a division, and cancellation in a difference.

Object model. The `marketData` object is a finite map from symbol to quote and
is modelled by a function `String → Option Quote` (`none`: the property is
`undefined`). Assignment `obj[k] = v` is `MarketData.set`.
-/

namespace Portfolio

/-! ## Numbers -/

/-- A JavaScript number as produced by a division: a finite value, one of the
two infinities, or NaN. -/
inductive JSNum where
  | fin (q : ℚ)
  | posInf
  | negInf
  | nan
  deriving DecidableEq, Repr

/-- The operator `a / b` on finite numbers: division by zero gives an infinity
of the sign of `a`, and `0 / 0` gives NaN. -/
def jsDiv (a b : ℚ) : JSNum :=
  if b ≠ 0 then JSNum.fin (a / b)
  else if 0 < a then JSNum.posInf
  else if a < 0 then JSNum.negInf
  else JSNum.nan

/-- The operator `x * c` for a positive finite constant `c` (here always 100). -/
def JSNum.scale (x : JSNum) (c : ℚ) : JSNum :=
  match x with
  | JSNum.fin q => JSNum.fin (q * c)
  | JSNum.posInf => JSNum.posInf
  | JSNum.negInf => JSNum.negInf
  | JSNum.nan => JSNum.nan

/-- Rounding of `Number.prototype.toFixed(f)` on a finite value: the sign is
split off, the magnitude is rounded to the nearest multiple of `10^-f`, the
larger one on a tie, and the sign is put back. -/
def roundFixed (f : ℕ) (x : ℚ) : ℚ :=
  if x < 0 then -(((⌊(-x) * 10 ^ f + 1 / 2⌋ : ℤ) : ℚ) / 10 ^ f)
  else ((⌊x * 10 ^ f + 1 / 2⌋ : ℤ) : ℚ) / 10 ^ f

/-- The method `x.toFixed(f)`, read as the number its result string denotes;
the strings "Infinity", "-Infinity" and "NaN" are kept as such. -/
def JSNum.toFixed (x : JSNum) (f : ℕ) : JSNum :=
  match x with
  | JSNum.fin q => JSNum.fin (roundFixed f q)
  | JSNum.posInf => JSNum.posInf
  | JSNum.negInf => JSNum.negInf
  | JSNum.nan => JSNum.nan

/-- The expression `v || 0` for `v` a number or `undefined`: a falsy left
operand (`undefined` or `0`) gives the right operand `0`. -/
def orZero (v : Option ℚ) : ℚ :=
  match v with
  | some p => if p ≠ 0 then p else 0
  | none => 0

/-! ## Data model -/

/-- An element of the `portfolio` state array (lines 159-164, 295-301). -/
structure Holding where
  id : ℕ
  symbol : String
  type : String
  quantity : ℚ
  buyPrice : ℚ
  deriving DecidableEq, Repr

/-- A value of the `marketData` object (lines 204-215 and 222-225); stock
quotes carry no `marketCap`. -/
structure Quote where
  price : ℚ
  change : ℚ
  marketCap : Option ℚ
  type : String
  name : String
  deriving DecidableEq, Repr

/-- The `marketData` state object. -/
abbrev MarketData := String → Option Quote

/-- The empty object `{}`. -/
def MarketData.empty : MarketData := fun _ => none

/-- Assignment `obj[k] = v`. -/
def MarketData.set (m : MarketData) (k : String) (v : Quote) : MarketData :=
  fun s => if s = k then some v else m s

/-- The initial `portfolio` state (lines 159-164). -/
def initialPortfolio : List Holding :=
  [ ⟨1, "BTC", "crypto", 1 / 2, 40000⟩,
    ⟨2, "AAPL", "stock", 10, 180⟩,
    ⟨3, "ETH", "crypto", 2, 2500⟩,
    ⟨4, "TSLA", "stock", 5, 250⟩ ]

/-! ## Portfolio metrics (lines 261-279) -/

/-- The expression `marketData[item.symbol]?.price`. -/
def priceField (marketData : MarketData) (symbol : String) : Option ℚ :=
  (marketData symbol).map Quote.price

/-- The function `calculatePortfolioValue` (lines 261-266). -/
def calculatePortfolioValue (portfolio : List Holding) (marketData : MarketData) : ℚ :=
  portfolio.foldl
    (fun total item =>
      let currentPrice := orZero (priceField marketData item.symbol)
      total + currentPrice * item.quantity)
    0

/-- The function `calculateTotalGainLoss` (lines 268-275). -/
def calculateTotalGainLoss (portfolio : List Holding) (marketData : MarketData) : ℚ :=
  portfolio.foldl
    (fun total item =>
      let currentPrice := orZero (priceField marketData item.symbol)
      let currentValue := currentPrice * item.quantity
      let originalValue := item.buyPrice * item.quantity
      total + (currentValue - originalValue))
    0

/-- The constant `gainLossPercentage` (line 279), with the literal '0.00' read
as the number 0. -/
def gainLossPercentage (portfolio : List Holding) (marketData : MarketData) : JSNum :=
  let portfolioValue := calculatePortfolioValue portfolio marketData
  let totalGainLoss := calculateTotalGainLoss portfolio marketData
  if portfolioValue > 0 then
    ((jsDiv totalGainLoss (portfolioValue - totalGainLoss)).scale 100).toFixed 2
  else JSNum.fin 0

/-! ## Holdings rows and portfolio stats (lines 456-479, 574-586) -/

/-- The numbers computed for one row of "Your Holdings" (lines 476-479). -/
structure HoldingRow where
  currentValue : ℚ
  originalValue : ℚ
  gainLoss : ℚ
  gainLossPercent : JSNum
  deriving DecidableEq, Repr

/-- The callback of `portfolio.map` in "Your Holdings" (lines 456-479). The
result `none` is the placeholder row "Loading price data..." that is rendered
when `marketData[item.symbol]` is `undefined`. -/
def holdingRow (marketData : MarketData) (item : Holding) : Option HoldingRow :=
  match marketData item.symbol with
  | none => none
  | some currentData =>
    let currentValue := currentData.price * item.quantity
    let originalValue := item.buyPrice * item.quantity
    let gainLoss := currentValue - originalValue
    let gainLossPercent := ((jsDiv gainLoss originalValue).scale 100).toFixed 2
    some ⟨currentValue, originalValue, gainLoss, gainLossPercent⟩

/-- The function `Math.max` applied to a spread list of finite numbers; with
no argument the result is `-Infinity`. -/
def mathMax : List ℚ → JSNum
  | [] => JSNum.negInf
  | x :: xs => JSNum.fin (xs.foldl max x)

/-- The function `Math.min` applied to a spread list of finite numbers; with
no argument the result is `Infinity`. -/
def mathMin : List ℚ → JSNum
  | [] => JSNum.posInf
  | x :: xs => JSNum.fin (xs.foldl min x)

/-- The callback `item => current ? current.change : 0` (lines 574-577 and
583-586). -/
def changeOrZero (marketData : MarketData) (item : Holding) : ℚ :=
  match marketData item.symbol with
  | some current => current.change
  | none => 0

/-- The "Best Performer" cell (lines 574-577): the number inside the rendered
text, or `none` for the text 'N/A'. -/
def bestPerformer (portfolio : List Holding) (marketData : MarketData) : Option JSNum :=
  if portfolio.length > 0 then
    some ((mathMax (portfolio.map (changeOrZero marketData))).toFixed 1)
  else none

/-- The "Worst Performer" cell (lines 583-586): the number inside the rendered
text, or `none` for the text 'N/A'. -/
def worstPerformer (portfolio : List Holding) (marketData : MarketData) : Option JSNum :=
  if portfolio.length > 0 then
    some ((mathMin (portfolio.map (changeOrZero marketData))).toFixed 1)
  else none

/-! ## Market data fetch (lines 11-62, 186-237) -/

/-- The constant `cryptoIdMap` (lines 11-22), in key order. -/
def cryptoIdMap : List (String × String) :=
  [ ("BTC", "bitcoin"), ("ETH", "ethereum"), ("ADA", "cardano"), ("SOL", "solana"),
    ("DOT", "polkadot"), ("MATIC", "polygon"), ("AVAX", "avalanche-2"), ("ATOM", "cosmos"),
    ("LINK", "chainlink"), ("UNI", "uniswap") ]

/-- One value of the CoinGecko price object. The field `usd` is taken to be a
number; the two other fields may be missing. -/
structure CoinData where
  usd : ℚ
  usd_24h_change : Option ℚ
  usd_market_cap : Option ℚ
  deriving DecidableEq, Repr

/-- What `fetchCryptoData` returns: an object listed as its entries, a value
of an entry being coin data or `null` (`none`); the outer `none` is a body
that parsed to `null`. -/
abbrev CryptoData := Option (List (String × Option CoinData))

/-- What happens to the request of `fetchCryptoData`: `fetch` rejects, or a
response arrives with its `ok` flag and a body; the body `none` is one on
which `response.json()` rejects. -/
inductive FetchOutcome where
  | networkError
  | response (ok : Bool) (json : Option CryptoData)
  deriving DecidableEq, Repr

/-- The mock data returned from the `catch` block of `fetchCryptoData`
(lines 36-41). -/
def fallbackCryptoData : CryptoData :=
  some [ ("bitcoin", some ⟨43250, some (5 / 2), some 850000000000⟩),
         ("ethereum", some ⟨2680, some (-6 / 5), some 320000000000⟩),
         ("cardano", some ⟨13 / 25, some (24 / 5), some 18000000000⟩),
         ("solana", some ⟨197 / 2, some (31 / 5), some 42000000000⟩) ]

/-- The method `apiService.fetchCryptoData` (lines 26-43) as a function of the
outcome of its request: every failure ends in the `catch` block. -/
def fetchCryptoData (outcome : FetchOutcome) : CryptoData :=
  match outcome with
  | FetchOutcome.response true (some json) => json
  | _ => fallbackCryptoData

/-- The object returned by `fetchStockData` (lines 45-62). -/
structure StockData where
  price : ℚ
  change : ℚ
  name : String
  deriving DecidableEq, Repr

/-- The constant `mockStockData` (lines 48-55). -/
def mockStockData : List (String × StockData) :=
  [ ("AAPL", ⟨771 / 4, 9 / 5, "Apple Inc."⟩),
    ("TSLA", ⟨497 / 2, -12 / 5, "Tesla Inc."⟩),
    ("GOOGL", ⟨1423 / 10, 9 / 10, "Alphabet Inc."⟩),
    ("MSFT", ⟨7577 / 20, 6 / 5, "Microsoft Corp."⟩),
    ("AMZN", ⟨776 / 5, 1 / 2, "Amazon.com Inc."⟩),
    ("NVDA", ⟨8753 / 10, 16 / 5, "NVIDIA Corp."⟩) ]

/-- The method `apiService.fetchStockData` (lines 45-62). -/
def fetchStockData (symbol : String) : StockData :=
  match mockStockData.lookup symbol with
  | some d => d
  | none => ⟨0, 0, symbol⟩

/-- The expression `Object.keys(cryptoIdMap).find(key => cryptoIdMap[key] === coinId)`
(line 202). -/
def symbolOfCoin (coinId : String) : Option String :=
  (cryptoIdMap.find? (fun kv => kv.2 = coinId)).map Prod.fst

/-- The nested conditional that names a crypto symbol (lines 209-214). -/
def cryptoName (symbol : String) : String :=
  if symbol = "BTC" then "Bitcoin"
  else if symbol = "ETH" then "Ethereum"
  else if symbol = "ADA" then "Cardano"
  else if symbol = "SOL" then "Solana"
  else if symbol = "DOT" then "Polkadot"
  else if symbol = "MATIC" then "Polygon"
  else symbol

/-- The callback of `Object.entries(cryptoData).forEach` (lines 201-217).
Every key of `cryptoIdMap` is a non-empty string, so `if (symbol)` tests that
`find` returned a key. The result `none` is the TypeError thrown by `data.usd`
when `data` is `null`. -/
def cryptoEntry (newMarketData : MarketData) (entry : String × Option CoinData) :
    Option MarketData :=
  match symbolOfCoin entry.1 with
  | none => some newMarketData
  | some symbol =>
    match entry.2 with
    | none => none
    | some data =>
      some (newMarketData.set symbol
        { price := data.usd
          change := orZero data.usd_24h_change
          marketCap := data.usd_market_cap
          type := "crypto"
          name := cryptoName symbol })

/-- The loop `forEach` over the entries (lines 201-217); it stops at the first
entry that throws. -/
def cryptoEntries (newMarketData : MarketData) :
    List (String × Option CoinData) → Option MarketData
  | [] => some newMarketData
  | entry :: rest =>
    match cryptoEntry newMarketData entry with
    | none => none
    | some m => cryptoEntries m rest

/-- The constant `stockSymbols` (line 193). -/
def stockSymbols : List String := ["AAPL", "TSLA", "GOOGL", "MSFT", "AMZN", "NVDA"]

/-- The loop over `stockSymbols` (lines 220-226). -/
def stockEntries (newMarketData : MarketData) : MarketData :=
  stockSymbols.foldl
    (fun m symbol =>
      let stockData := fetchStockData symbol
      m.set symbol
        { price := stockData.price
          change := stockData.change
          marketCap := none
          type := "stock"
          name := stockData.name })
    newMarketData

/-- The object `newMarketData` as built in the `try` block (lines 195-226), or
`none` when the block throws: `Object.entries(null)` throws, and so does an
entry whose value is `null`. -/
def buildMarketData (cryptoData : CryptoData) : Option MarketData :=
  match cryptoData with
  | none => none
  | some entries =>
    match cryptoEntries MarketData.empty entries with
    | none => none
    | some m => some (stockEntries m)

/-- The state of `PortfolioDashboard` that `fetchMarketData` writes. -/
structure DashboardState where
  marketData : MarketData
  loading : Bool
  error : Option String
  lastUpdate : Option String

/-- The initial state (lines 166, 176-178). -/
def DashboardState.initial : DashboardState :=
  ⟨MarketData.empty, true, none, none⟩

/-- The first two statements of `fetchMarketData` (lines 188-189), run before
the request is sent. -/
def fetchStart (s : DashboardState) : DashboardState :=
  { s with loading := true, error := none }

/-- The rest of `fetchMarketData` (lines 191-236), run once the request has
its outcome; `clock` is the text of `new Date().toLocaleTimeString()`. -/
def fetchFinish (s : DashboardState) (outcome : FetchOutcome) (clock : String) :
    DashboardState :=
  match buildMarketData (fetchCryptoData outcome) with
  | some newMarketData =>
    { s with marketData := newMarketData, lastUpdate := some clock, loading := false }
  | none =>
    { s with error := some "Failed to fetch market data. Using cached data.", loading := false }

/-- One whole cycle of `fetchMarketData` (lines 186-237). -/
def fetchMarketData (s : DashboardState) (outcome : FetchOutcome) (clock : String) :
    DashboardState :=
  fetchFinish (fetchStart s) outcome clock

/-! ## Adding and removing holdings (lines 88-96, 294-307) -/

/-- The digits that start a list of characters, as numbers, and the rest. -/
def takeDigits : List Char → List ℕ × List Char
  | [] => ([], [])
  | c :: cs =>
    if c.isDigit then ((c.toNat - 48) :: (takeDigits cs).1, (takeDigits cs).2)
    else ([], c :: cs)

/-- The number written by a list of decimal digits. -/
def digitsValue (ds : List ℕ) : ℕ :=
  ds.foldl (fun n d => 10 * n + d) 0

/-- An optional sign in front of a list of characters: whether it is a minus
sign, and the rest. -/
def takeSign : List Char → Bool × List Char
  | '-' :: cs => (true, cs)
  | '+' :: cs => (false, cs)
  | cs => (false, cs)

/-- The exponent part of a decimal literal: `e` or `E`, an optional sign and
at least one digit; anything else means no exponent. -/
def takeExponent : List Char → ℤ
  | c :: cs =>
    if c = 'e' ∨ c = 'E' then
      let ds := (takeDigits (takeSign cs).2).1
      if ds = [] then 0
      else if (takeSign cs).1 then -(digitsValue ds : ℤ) else (digitsValue ds : ℤ)
    else 0
  | [] => 0

/-- The global function `parseFloat` on decimal text: leading white space is
skipped, then the longest decimal literal is read (sign, digits, fraction,
exponent) and what follows is ignored. The result `none` stands for a result
that is not a finite number (NaN when no digit is found). -/
def parseFloat (s : String) : Option ℚ :=
  let cs := takeSign (s.toList.dropWhile Char.isWhitespace)
  let ip := takeDigits cs.2
  let fp : List ℕ × List Char :=
    match ip.2 with
    | '.' :: rest => takeDigits rest
    | rest => ([], rest)
  if ip.1 = [] ∧ fp.1 = [] then none
  else
    let mantissa : ℚ := (digitsValue ip.1 : ℚ) + (digitsValue fp.1 : ℚ) / 10 ^ fp.1.length
    let value : ℚ := mantissa * 10 ^ takeExponent fp.2
    some (if cs.1 then -value else value)

/-- The method `toUpperCase` on ASCII text. -/
def toUpperCase (s : String) : String :=
  String.mk (s.toList.map Char.toUpper)

/-- The state of `AddAssetForm` (lines 83-86): the text of its four fields. -/
structure AssetForm where
  symbol : String
  type : String
  quantity : String
  buyPrice : String
  deriving DecidableEq, Repr

/-- The function `addToPortfolio` (lines 294-303); `now` is the value of
`Date.now()`. The program always appends the new item; the result `none`
stands for an item one of whose numeric fields is not a finite number, which
the rational model of `Holding` does not hold. -/
def addToPortfolio (now : ℕ) (portfolio : List Holding)
    (symbol type quantity buyPrice : String) : Option (List Holding) :=
  match parseFloat quantity, parseFloat buyPrice with
  | some q, some b =>
    let newItem : Holding :=
      { id := now, symbol := toUpperCase symbol, type := type, quantity := q, buyPrice := b }
    some (portfolio ++ [newItem])
  | _, _ => none

/-- The function `removeFromPortfolio` (lines 305-307). -/
def removeFromPortfolio (portfolio : List Holding) (id : ℕ) : List Holding :=
  portfolio.filter (fun item => item.id ≠ id)

/-- The handler `handleSubmit` of `AddAssetForm` (lines 88-96) with
`onAdd = addToPortfolio`, as the holdings list it leaves. A string is truthy
when it is not empty. -/
def handleSubmit (now : ℕ) (portfolio : List Holding) (form : AssetForm) :
    Option (List Holding) :=
  if form.symbol ≠ "" ∧ form.quantity ≠ "" ∧ form.buyPrice ≠ "" then
    addToPortfolio now portfolio form.symbol form.type form.quantity form.buyPrice
  else some portfolio

/-! ## Portfolio distribution (lines 282-290, 529-552) -/

/-- An element of the array `portfolioDistribution` (lines 285-289); the
string `percentage` is read as the number it denotes. -/
structure DistributionEntry where
  name : String
  value : ℚ
  percentage : JSNum
  deriving DecidableEq, Repr

/-- The expression `(value / portfolioValue) * 100` (line 288), to which
`toFixed(1)` is then applied. -/
def sharePercent (value portfolioValue : ℚ) : JSNum :=
  (jsDiv value portfolioValue).scale 100

/-- The constant `portfolioDistribution` (lines 282-290), with the literal
'0.0' read as the number 0. -/
def portfolioDistribution (portfolio : List Holding) (marketData : MarketData) :
    List DistributionEntry :=
  let portfolioValue := calculatePortfolioValue portfolio marketData
  portfolio.map (fun item =>
    let currentPrice := orZero (priceField marketData item.symbol)
    let value := currentPrice * item.quantity
    { name := item.symbol
      value := value
      percentage :=
        if portfolioValue > 0 then (sharePercent value portfolioValue).toFixed 1
        else JSNum.fin 0 })

/-- The body of the "Portfolio Distribution" panel (lines 529-552): the data
handed to the pie chart, or `none` for the text "Add assets to see
distribution". -/
def distributionPanel (portfolio : List Holding) (marketData : MarketData) :
    Option (List DistributionEntry) :=
  if calculatePortfolioValue portfolio marketData > 0 then
    some (portfolioDistribution portfolio marketData)
  else none

/-! ## Refresh triggers (lines 239-258, 337-343) -/

/-- The three callers of `fetchMarketData`: the effect run on mount (lines
240-242), the callback of the 5-minute interval (lines 245-251) and the click
handler `handleRefresh` (lines 254-258). -/
inductive Trigger where
  | initialLoad
  | intervalTick
  | manualRefresh
  deriving DecidableEq, Repr

/-- The dashboard between two events of the event loop: the state written by
`fetchMarketData`, the `refreshing` flag, and the calls of `fetchMarketData`
that have sent their request and are suspended at `await`, oldest first, each
with the trigger that made it. -/
structure Scheduler where
  dash : DashboardState
  refreshing : Bool
  pending : List Trigger

/-- The scheduler on mount, before the first effect runs. -/
def Scheduler.initial : Scheduler :=
  ⟨DashboardState.initial, false, []⟩

/-- The keys the object `marketData` can have: it is only ever assigned at a
key of `cryptoIdMap` (lines 202-204) or at a stock symbol (lines 220-222). -/
def marketDataKeys : List String :=
  cryptoIdMap.map Prod.fst ++ stockSymbols

/-- The expression `Object.keys(marketData).length` (line 315), counted over
the keys the object can have. -/
def keyCount (marketData : MarketData) : ℕ :=
  (marketDataKeys.filter (fun k => (marketData k).isSome)).length

/-- The test of line 315: when it holds the component returns the loading
screen (lines 316-324) and the header with the refresh button is not
rendered. -/
def loadingScreen (s : DashboardState) : Bool :=
  s.loading && keyCount s.marketData == 0

/-- A trigger arrives. The effect and the interval callback call
`fetchMarketData` at once. A click reaches `handleRefresh` only when the
refresh button is rendered (no loading screen, line 315) and enabled
(`disabled=refreshing`, line 339); otherwise nothing runs. `handleRefresh`
sets `refreshing` and calls `fetchMarketData`. A call runs `fetchMarketData`
up to its first `await`: the two state writes of `fetchStart`, then the
request is sent. -/
def Scheduler.trigger (s : Scheduler) (t : Trigger) : Scheduler :=
  match t with
  | Trigger.manualRefresh =>
    if loadingScreen s.dash || s.refreshing then s
    else { dash := fetchStart s.dash, refreshing := true, pending := s.pending ++ [t] }
  | _ => { dash := fetchStart s.dash, refreshing := s.refreshing, pending := s.pending ++ [t] }

/-- The request of the pending call number `i` gets its outcome: the call
resumes and runs to its end (`fetchFinish`); a call made by `handleRefresh`
then clears `refreshing` (line 257). -/
def Scheduler.complete (s : Scheduler) (i : ℕ) (outcome : FetchOutcome) (clock : String) :
    Scheduler :=
  match s.pending.get? i with
  | none => s
  | some t =>
    { dash := fetchFinish s.dash outcome clock
      refreshing := if t = Trigger.manualRefresh then false else s.refreshing
      pending := s.pending.eraseIdx i }

/-- The states the dashboard can be in: the effect on mount makes the first
call; from then on interval ticks, clicks on the refresh button and outcomes
of pending requests arrive in any order. -/
inductive Reachable : Scheduler → Prop where
  | mount : Reachable (Scheduler.initial.trigger Trigger.initialLoad)
  | tick (s : Scheduler) : Reachable s → Reachable (s.trigger Trigger.intervalTick)
  | click (s : Scheduler) : Reachable s → Reachable (s.trigger Trigger.manualRefresh)
  | complete (s : Scheduler) (i : ℕ) (outcome : FetchOutcome) (clock : String) :
      Reachable s → Reachable (s.complete i outcome clock)

/-- A concrete run: the initial load is made on mount and completes (its
request fails, so the fallback values are stored), then an interval tick
arrives and its cycle stays in flight. -/
def tickInFlight : Scheduler :=
  ((Scheduler.initial.trigger Trigger.initialLoad).complete 0
    FetchOutcome.networkError "10:00:00").trigger Trigger.intervalTick

/-! ## Double-precision arithmetic

Where a result depends on how the program's numbers are rounded, the program
is read with binary64 arithmetic: every `+`, `-`, `*` and `/` gives the double
nearest to the exact result, the even one on a tie. A double is modelled by
the rational it denotes. The exponent range is taken unbounded (no overflow to
`Infinity`, no subnormal numbers) and zero has no sign. The definitions of the
namespace `Double` are the program's functions read this way. -/

/-- The integer nearest to `m`, the even one on a tie. -/
def roundHalfEven (m : ℚ) : ℤ :=
  if m - ⌊m⌋ < 1 / 2 then ⌊m⌋
  else if 1 / 2 < m - ⌊m⌋ then ⌊m⌋ + 1
  else if ⌊m⌋ % 2 = 0 then ⌊m⌋
  else ⌊m⌋ + 1

/-- The double nearest to `x`: with `2^e ≤ |x| < 2^(e+1)`, the nearest
multiple of `2^(e-52)`. -/
def roundDouble (x : ℚ) : ℚ :=
  if x = 0 then 0
  else (roundHalfEven (x / (2 : ℚ) ^ (Int.log 2 |x| - 52)) : ℚ) * (2 : ℚ) ^ (Int.log 2 |x| - 52)

/-- The operator `a + b` on doubles. -/
def fadd (a b : ℚ) : ℚ := roundDouble (a + b)

/-- The operator `a - b` on doubles. -/
def fsub (a b : ℚ) : ℚ := roundDouble (a - b)

/-- The operator `a * b` on doubles. -/
def fmul (a b : ℚ) : ℚ := roundDouble (a * b)

/-- The operator `a / b` on doubles: division by zero gives an infinity of the
sign of `a`, and `0 / 0` gives NaN. -/
def fdiv (a b : ℚ) : JSNum :=
  if b ≠ 0 then JSNum.fin (roundDouble (a / b))
  else if 0 < a then JSNum.posInf
  else if a < 0 then JSNum.negInf
  else JSNum.nan

/-- The operator `x * c` on doubles for a positive finite constant `c` (here
always 100). -/
def JSNum.fmul (x : JSNum) (c : ℚ) : JSNum :=
  match x with
  | JSNum.fin q => JSNum.fin (roundDouble (q * c))
  | JSNum.posInf => JSNum.posInf
  | JSNum.negInf => JSNum.negInf
  | JSNum.nan => JSNum.nan

/-- The function `calculatePortfolioValue` (lines 261-266) on doubles. -/
def Double.calculatePortfolioValue (portfolio : List Holding) (marketData : MarketData) : ℚ :=
  portfolio.foldl
    (fun total item =>
      let currentPrice := orZero (priceField marketData item.symbol)
      fadd total (fmul currentPrice item.quantity))
    0

/-- The function `calculateTotalGainLoss` (lines 268-275) on doubles. -/
def Double.calculateTotalGainLoss (portfolio : List Holding) (marketData : MarketData) : ℚ :=
  portfolio.foldl
    (fun total item =>
      let currentPrice := orZero (priceField marketData item.symbol)
      let currentValue := fmul currentPrice item.quantity
      let originalValue := fmul item.buyPrice item.quantity
      fadd total (fsub currentValue originalValue))
    0

/-- The expression `(totalGainLoss / (portfolioValue - totalGainLoss)) * 100`
of line 279 on doubles, to which `toFixed(2)` is then applied. -/
def Double.gainLossRatio (totalGainLoss portfolioValue : ℚ) : JSNum :=
  (fdiv totalGainLoss (fsub portfolioValue totalGainLoss)).fmul 100

/-- The constant `gainLossPercentage` (line 279) on doubles, with the literal
'0.00' read as the number 0. -/
def Double.gainLossPercentage (portfolio : List Holding) (marketData : MarketData) : JSNum :=
  let portfolioValue := Double.calculatePortfolioValue portfolio marketData
  let totalGainLoss := Double.calculateTotalGainLoss portfolio marketData
  if portfolioValue > 0 then (Double.gainLossRatio totalGainLoss portfolioValue).toFixed 2
  else JSNum.fin 0

/-- The expression `(value / portfolioValue) * 100` (line 288) on doubles, to
which `toFixed(1)` is then applied. -/
def Double.sharePercent (value portfolioValue : ℚ) : JSNum :=
  (fdiv value portfolioValue).fmul 100

/-- The constant `portfolioDistribution` (lines 282-290) on doubles, with the
literal '0.0' read as the number 0. -/
def Double.portfolioDistribution (portfolio : List Holding) (marketData : MarketData) :
    List DistributionEntry :=
  let portfolioValue := Double.calculatePortfolioValue portfolio marketData
  portfolio.map (fun item =>
    let currentPrice := orZero (priceField marketData item.symbol)
    let value := fmul currentPrice item.quantity
    { name := item.symbol
      value := value
      percentage :=
        if portfolioValue > 0 then (Double.sharePercent value portfolioValue).toFixed 1
        else JSNum.fin 0 })

/-- The expression `(gainLoss / originalValue) * 100` (line 479) on doubles,
to which `toFixed(2)` is then applied. -/
def Double.rowRatio (gainLoss originalValue : ℚ) : JSNum :=
  (fdiv gainLoss originalValue).fmul 100

/-- The callback of `portfolio.map` in "Your Holdings" (lines 456-479) on
doubles; `none` is the placeholder row. -/
def Double.holdingRow (marketData : MarketData) (item : Holding) : Option HoldingRow :=
  match marketData item.symbol with
  | none => none
  | some currentData =>
    let currentValue := fmul currentData.price item.quantity
    let originalValue := fmul item.buyPrice item.quantity
    let gainLoss := fsub currentValue originalValue
    let gainLossPercent := (Double.rowRatio gainLoss originalValue).toFixed 2
    some ⟨currentValue, originalValue, gainLoss, gainLossPercent⟩

/-- The expression `currentPrice * item.quantity` (lines 263-264, 270-271 and
283-284) on doubles: the current value of one holding. -/
def Double.holdingValue (marketData : MarketData) (item : Holding) : ℚ :=
  fmul (orZero (priceField marketData item.symbol)) item.quantity

/-- The expression `currentValue - originalValue` (lines 271-273) on doubles:
the gain or loss of one holding. -/
def Double.holdingGain (marketData : MarketData) (item : Holding) : ℚ :=
  fsub (Double.holdingValue marketData item) (fmul item.buyPrice item.quantity)

/-- The number `(value / portfolioValue) * 100` of line 288 on doubles for one
holding, when `portfolioValue` is not zero. -/
def Double.share (portfolio : List Holding) (marketData : MarketData) (item : Holding) : ℚ :=
  roundDouble
    (roundDouble (Double.holdingValue marketData item
      / Double.calculatePortfolioValue portfolio marketData) * 100)

/-- A quote map with the single quote BTC at price 43250 (the fallback
values of line 37), used in concrete runs. -/
def btcMarket : MarketData :=
  MarketData.empty.set "BTC" ⟨43250, 5 / 2, some 850000000000, "crypto", "Bitcoin"⟩

/-- Three BTC holdings of quantity 1 bought at 40000. -/
def threeBtc : List Holding :=
  [⟨1, "BTC", "crypto", 1, 40000⟩, ⟨2, "BTC", "crypto", 1, 40000⟩,
    ⟨3, "BTC", "crypto", 1, 40000⟩]

/-- Six BTC holdings of quantity 1 bought at 40000. -/
def sixBtc : List Holding :=
  [⟨1, "BTC", "crypto", 1, 40000⟩, ⟨2, "BTC", "crypto", 1, 40000⟩,
    ⟨3, "BTC", "crypto", 1, 40000⟩, ⟨4, "BTC", "crypto", 1, 40000⟩,
    ⟨5, "BTC", "crypto", 1, 40000⟩, ⟨6, "BTC", "crypto", 1, 40000⟩]

/-- A quote map with the single quote AAPL at price 192.75 (line 49). -/
def aaplMarket : MarketData :=
  MarketData.empty.set "AAPL" ⟨771 / 4, 9 / 5, none, "stock", "Apple Inc."⟩

/-- Two AAPL holdings, of 41 and of 39 shares, bought at 180. -/
def twoAapl : List Holding :=
  [⟨1, "AAPL", "stock", 41, 180⟩, ⟨2, "AAPL", "stock", 39, 180⟩]

/-- The double nearest to 0.1, which `parseFloat` returns for the text "0.1". -/
def tenth : ℚ := 3602879701896397 / 36028797018963968

/-- One BTC holding of quantity 1 bought at 0.1. -/
def tenthBtc : List Holding :=
  [⟨1, "BTC", "crypto", 1, tenth⟩]

/-- One BTC holding of quantity 1 bought at `2^-40` (about 9.09e-13). -/
def tinyBtc : List Holding :=
  [⟨1, "BTC", "crypto", 1, 1 / 1099511627776⟩]

/-- Three BTC holdings of quantities `2^54`, 3 and `-2^54`, bought at 40000. -/
def cancelBtc : List Holding :=
  [⟨1, "BTC", "crypto", 18014398509481984, 40000⟩, ⟨2, "BTC", "crypto", 3, 40000⟩,
    ⟨3, "BTC", "crypto", -18014398509481984, 40000⟩]

/-! ## Specification-side notions -/

/-- The price the valuation uses for a symbol: the quote's price when the
symbol has a quote, and 0 when the quote is absent. -/
def quotePrice (marketData : MarketData) (symbol : String) : ℚ :=
  match marketData symbol with
  | some q => q.price
  | none => 0

/-- The current value of one holding. -/
def currentValue (marketData : MarketData) (h : Holding) : ℚ :=
  quotePrice marketData h.symbol * h.quantity

/-! ## Theorems -/

theorem orZero_priceField (marketData : MarketData) (symbol : String) :
    orZero (priceField marketData symbol) = quotePrice marketData symbol := by
  unfold orZero priceField quotePrice
  cases h : marketData symbol with
  | none => simp
  | some q =>
    by_cases hq : q.price = 0 <;> simp [hq]

theorem foldl_add_eq_sum {α : Type} (f : α → ℚ) (l : List α) (init : ℚ) :
    l.foldl (fun total item => total + f item) init = init + (l.map f).sum := by
  induction l generalizing init with
  | nil => simp
  | cons a t ih => simp [ih, add_assoc]

theorem portfolioValue_eq_sum (portfolio : List Holding) (marketData : MarketData) :
    calculatePortfolioValue portfolio marketData
      = (portfolio.map (currentValue marketData)).sum := by
  unfold calculatePortfolioValue
  simp only [orZero_priceField]
  rw [foldl_add_eq_sum (fun h : Holding => quotePrice marketData h.symbol * h.quantity)]
  simp only [zero_add]
  rfl

theorem totalGainLoss_eq_sum (portfolio : List Holding) (marketData : MarketData) :
    calculateTotalGainLoss portfolio marketData
      = (portfolio.map (fun h : Holding =>
          currentValue marketData h - h.buyPrice * h.quantity)).sum := by
  unfold calculateTotalGainLoss
  simp only [orZero_priceField]
  rw [foldl_add_eq_sum (fun h : Holding =>
    quotePrice marketData h.symbol * h.quantity - h.buyPrice * h.quantity)]
  simp only [zero_add]
  rfl

theorem currentValue_of_absent (marketData : MarketData) (h : Holding)
    (hq : marketData h.symbol = none) : currentValue marketData h = 0 := by
  simp [currentValue, quotePrice, hq]

/-- C1: calculatePortfolioValue returns the sum over all holdings of
price(h.symbol) × h.quantity, where price is the quote's price when the symbol
has a quote and 0 when it is absent; the function is total, and a holding
without a quote stays in the sum with value 0. -/
theorem calculatePortfolioValue_eq_sum (portfolio : List Holding) (marketData : MarketData) :
    calculatePortfolioValue portfolio marketData
      = (portfolio.map (fun h : Holding =>
          (match marketData h.symbol with
            | some q => q.price
            | none => 0) * h.quantity)).sum := by
  rw [portfolioValue_eq_sum]
  rfl

/-- C2: calculateTotalGainLoss returns the sum over all holdings of
currentValue(h) − h.buyPrice × h.quantity, where currentValue(h) is 0 when the
quote is absent; when no holding has a quote, the total value is 0 and the
total gain/loss is minus the total cost. -/
theorem calculateTotalGainLoss_eq_sum (portfolio : List Holding) (marketData : MarketData) :
    calculateTotalGainLoss portfolio marketData
        = (portfolio.map (fun h : Holding =>
            (match marketData h.symbol with
              | some q => q.price
              | none => 0) * h.quantity - h.buyPrice * h.quantity)).sum
      ∧ ((∀ h ∈ portfolio, marketData h.symbol = none) →
          calculatePortfolioValue portfolio marketData = 0
          ∧ calculateTotalGainLoss portfolio marketData
              = -(portfolio.map (fun h : Holding => h.buyPrice * h.quantity)).sum) := by
  refine ⟨?_, ?_⟩
  · rw [totalGainLoss_eq_sum]
    rfl
  · intro habs
    rw [portfolioValue_eq_sum, totalGainLoss_eq_sum]
    have hv : ∀ l : List Holding, (∀ h ∈ l, marketData h.symbol = none) →
        (l.map (currentValue marketData)).sum = 0
        ∧ (l.map (fun h : Holding => currentValue marketData h - h.buyPrice * h.quantity)).sum
            = -(l.map (fun h : Holding => h.buyPrice * h.quantity)).sum := by
      intro l
      induction l with
      | nil => simp
      | cons a t ih =>
        intro hl
        have ha : currentValue marketData a = 0 :=
          currentValue_of_absent marketData a (hl a (List.mem_cons_self a t))
        have ht := ih (fun h hh => hl h (List.mem_cons_of_mem a hh))
        constructor
        · simp [ha, ht.1]
        · simp only [List.map_cons, List.sum_cons, ha, ht.2]
          ring
    exact hv portfolio habs

/-- C2, the scenario of the claim: the single holding AAPL, quantity 10, cost
180, with no quote at all, has total value 0 and total gain/loss −1800. -/
theorem calculateTotalGainLoss_eq_sum_witness :
    (∀ h ∈ [(⟨2, "AAPL", "stock", 10, 180⟩ : Holding)], MarketData.empty h.symbol = none)
      ∧ calculatePortfolioValue [⟨2, "AAPL", "stock", 10, 180⟩] MarketData.empty = 0
      ∧ calculateTotalGainLoss [⟨2, "AAPL", "stock", 10, 180⟩] MarketData.empty = -1800 := by
  have habs : ∀ h ∈ [(⟨2, "AAPL", "stock", 10, 180⟩ : Holding)],
      MarketData.empty h.symbol = none := fun _ _ => rfl
  have h := (calculateTotalGainLoss_eq_sum [⟨2, "AAPL", "stock", 10, 180⟩]
    MarketData.empty).2 habs
  refine ⟨habs, h.1, ?_⟩
  rw [h.2]
  norm_num

/-- C3: with the single holding BTC, quantity 1, bought at price 0, and a BTC
quote of 43250, the total value is positive and the denominator
totalValue − totalGainLoss is 0, yet gainLossPercentage is not 0: the division
by zero is carried out and the result is Infinity. -/
theorem gainLossPercentage_zero_cost :
    calculatePortfolioValue [⟨1, "BTC", "crypto", 1, 0⟩]
        (MarketData.empty.set "BTC" ⟨43250, 5 / 2, some 850000000000, "crypto", "Bitcoin"⟩)
      - calculateTotalGainLoss [⟨1, "BTC", "crypto", 1, 0⟩]
        (MarketData.empty.set "BTC" ⟨43250, 5 / 2, some 850000000000, "crypto", "Bitcoin"⟩) ≤ 0
    ∧ gainLossPercentage [⟨1, "BTC", "crypto", 1, 0⟩]
        (MarketData.empty.set "BTC" ⟨43250, 5 / 2, some 850000000000, "crypto", "Bitcoin"⟩)
      = JSNum.posInf
    ∧ gainLossPercentage [⟨1, "BTC", "crypto", 1, 0⟩]
        (MarketData.empty.set "BTC" ⟨43250, 5 / 2, some 850000000000, "crypto", "Bitcoin"⟩)
      ≠ JSNum.fin 0 := by
  have hv : calculatePortfolioValue [⟨1, "BTC", "crypto", 1, 0⟩]
      (MarketData.empty.set "BTC" ⟨43250, 5 / 2, some 850000000000, "crypto", "Bitcoin"⟩)
      = 43250 := by
    simp [calculatePortfolioValue, priceField, MarketData.set, orZero]
  have hg : calculateTotalGainLoss [⟨1, "BTC", "crypto", 1, 0⟩]
      (MarketData.empty.set "BTC" ⟨43250, 5 / 2, some 850000000000, "crypto", "Bitcoin"⟩)
      = 43250 := by
    simp [calculateTotalGainLoss, priceField, MarketData.set, orZero]
  have hp : gainLossPercentage [⟨1, "BTC", "crypto", 1, 0⟩]
      (MarketData.empty.set "BTC" ⟨43250, 5 / 2, some 850000000000, "crypto", "Bitcoin"⟩)
      = JSNum.posInf := by
    unfold gainLossPercentage
    simp only [hv, hg]
    norm_num [jsDiv, JSNum.scale, JSNum.toFixed]
  refine ⟨?_, hp, ?_⟩
  · rw [hv, hg]; norm_num
  · rw [hp]; decide

/-- C4: the holdings row of BTC, quantity 1, bought at price 0, with a BTC
quote of 43250 has cost basis 0 and shows the percentage Infinity, not 0; with
a quote of price 0 the same row shows NaN. -/
theorem holdingRow_zero_cost :
    holdingRow (MarketData.empty.set "BTC" ⟨43250, 5 / 2, some 850000000000, "crypto", "Bitcoin"⟩)
        ⟨1, "BTC", "crypto", 1, 0⟩
      = some ⟨43250, 0, 43250, JSNum.posInf⟩
    ∧ holdingRow (MarketData.empty.set "BTC" ⟨0, 0, none, "crypto", "Bitcoin"⟩)
        ⟨1, "BTC", "crypto", 1, 0⟩
      = some ⟨0, 0, 0, JSNum.nan⟩ := by
  constructor
  · norm_num [holdingRow, MarketData.set, jsDiv, JSNum.scale, JSNum.toFixed]
  · norm_num [holdingRow, MarketData.set, jsDiv, JSNum.scale, JSNum.toFixed]

/-! ### Market data after a fetch cycle -/

theorem stockEntries_of_not_stock (m : MarketData) (symbol : String)
    (h : symbol ∉ stockSymbols) : stockEntries m symbol = m symbol := by
  simp only [stockSymbols, List.mem_cons, List.mem_singleton, List.not_mem_nil, or_false,
    not_or] at h
  obtain ⟨h1, h2, h3, h4, h5, h6⟩ := h
  simp [stockEntries, stockSymbols, MarketData.set, h1, h2, h3, h4, h5, h6]

theorem cryptoEntry_of_unmapped (acc m : MarketData) (entry : String × Option CoinData)
    (symbol : String) (hne : symbolOfCoin entry.1 ≠ some symbol)
    (hm : cryptoEntry acc entry = some m) : m symbol = acc symbol := by
  unfold cryptoEntry at hm
  cases hs : symbolOfCoin entry.1 with
  | none =>
    rw [hs] at hm
    simp only [Option.some.injEq] at hm
    rw [← hm]
  | some sym =>
    rw [hs] at hm hne
    cases hd : entry.2 with
    | none => rw [hd] at hm; simp at hm
    | some data =>
      rw [hd] at hm
      simp only [Option.some.injEq] at hm
      have hsym : symbol ≠ sym := fun h => hne (by rw [h])
      rw [← hm]
      simp [MarketData.set, hsym]

theorem cryptoEntries_of_unmapped (entries : List (String × Option CoinData))
    (acc m : MarketData) (symbol : String)
    (hne : ∀ e ∈ entries, symbolOfCoin e.1 ≠ some symbol)
    (hm : cryptoEntries acc entries = some m) : m symbol = acc symbol := by
  induction entries generalizing acc with
  | nil =>
    simp only [cryptoEntries, Option.some.injEq] at hm
    rw [← hm]
  | cons e rest ih =>
    unfold cryptoEntries at hm
    cases he : cryptoEntry acc e with
    | none => rw [he] at hm; simp at hm
    | some m1 =>
      rw [he] at hm
      have h1 := cryptoEntry_of_unmapped acc m1 e symbol (hne e (List.mem_cons_self e rest)) he
      have h2 := ih m1 (fun x hx => hne x (List.mem_cons_of_mem e hx)) hm
      rw [h2, h1]

theorem fetchMarketData_error_none_iff (s : DashboardState) (outcome : FetchOutcome)
    (clock : String) :
    (fetchMarketData s outcome clock).error = none
      ↔ ∃ m, buildMarketData (fetchCryptoData outcome) = some m := by
  unfold fetchMarketData fetchFinish fetchStart
  cases buildMarketData (fetchCryptoData outcome) <;> simp

theorem fetchMarketData_marketData_of_build (s : DashboardState) (outcome : FetchOutcome)
    (clock : String) (m : MarketData)
    (h : buildMarketData (fetchCryptoData outcome) = some m) :
    (fetchMarketData s outcome clock).marketData = m := by
  unfold fetchMarketData fetchFinish fetchStart
  rw [h]

theorem fetchCryptoData_of_failure (outcome : FetchOutcome)
    (hfail : outcome = FetchOutcome.networkError
      ∨ (∃ json, outcome = FetchOutcome.response false json)
      ∨ outcome = FetchOutcome.response true none) :
    fetchCryptoData outcome = fallbackCryptoData := by
  rcases hfail with h | ⟨json, h⟩ | h <;> subst h <;> rfl

/-- C5, as stated, fails: BTC has a quote before the cycle, the cycle gets an
ok response whose object is empty and completes without error, and afterwards
BTC has no quote, so marketData has changed and an observed symbol is gone. -/
theorem fetchMarketData_drops_absent_symbol :
    (⟨MarketData.empty.set "BTC" ⟨50000, 1, some 900000000000, "crypto", "Bitcoin"⟩,
        false, none, none⟩ : DashboardState).marketData "BTC"
      = some ⟨50000, 1, some 900000000000, "crypto", "Bitcoin"⟩
    ∧ (fetchMarketData
        ⟨MarketData.empty.set "BTC" ⟨50000, 1, some 900000000000, "crypto", "Bitcoin"⟩,
          false, none, none⟩
        (FetchOutcome.response true (some (some []))) "10:05:00").error = none
    ∧ (fetchMarketData
        ⟨MarketData.empty.set "BTC" ⟨50000, 1, some 900000000000, "crypto", "Bitcoin"⟩,
          false, none, none⟩
        (FetchOutcome.response true (some (some []))) "10:05:00").marketData "BTC" = none := by
  refine ⟨?_, ?_, ?_⟩
  · simp [MarketData.set]
  · simp [fetchMarketData, fetchFinish, fetchStart, fetchCryptoData, buildMarketData,
      cryptoEntries]
  · simp [fetchMarketData, fetchFinish, fetchStart, fetchCryptoData, buildMarketData,
      cryptoEntries, stockEntries, stockSymbols, MarketData.set, MarketData.empty]

/-- C5, amended: after a cycle that completes without error, marketData is
built from the response of that cycle alone. A symbol that is missing from the
response (it is no stock symbol and no coin id of the response maps to it) has
no quote after the cycle, whatever it had before, and the resulting marketData
is the same for every prior state. -/
theorem fetchMarketData_absent_symbol (s : DashboardState) (outcome : FetchOutcome)
    (clock : String) (symbol : String)
    (hok : (fetchMarketData s outcome clock).error = none)
    (hstock : symbol ∉ stockSymbols)
    (hmiss : ∀ entries, fetchCryptoData outcome = some entries →
      ∀ e ∈ entries, symbolOfCoin e.1 ≠ some symbol) :
    (fetchMarketData s outcome clock).marketData symbol = none
      ∧ ∀ s0 : DashboardState,
          (fetchMarketData s0 outcome clock).marketData
            = (fetchMarketData s outcome clock).marketData := by
  obtain ⟨m, hm⟩ := (fetchMarketData_error_none_iff s outcome clock).1 hok
  constructor
  · rw [fetchMarketData_marketData_of_build s outcome clock m hm]
    cases hc : fetchCryptoData outcome with
    | none => rw [hc] at hm; simp [buildMarketData] at hm
    | some entries =>
      rw [hc] at hm
      simp only [buildMarketData] at hm
      cases he : cryptoEntries MarketData.empty entries with
      | none => rw [he] at hm; simp at hm
      | some m1 =>
        rw [he] at hm
        simp only [Option.some.injEq] at hm
        rw [← hm, stockEntries_of_not_stock m1 symbol hstock,
          cryptoEntries_of_unmapped entries MarketData.empty m1 symbol (hmiss entries hc) he]
        rfl
  · intro s0
    rw [fetchMarketData_marketData_of_build s outcome clock m hm,
      fetchMarketData_marketData_of_build s0 outcome clock m hm]

/-- C5, amended, at a concrete cycle: BTC is cached, the response object is
empty, and BTC has no quote afterwards. -/
theorem fetchMarketData_absent_symbol_witness :
    (fetchMarketData
        ⟨MarketData.empty.set "BTC" ⟨50000, 1, some 900000000000, "crypto", "Bitcoin"⟩,
          false, none, none⟩
        (FetchOutcome.response true (some (some []))) "10:05:00").marketData "BTC" = none :=
  (fetchMarketData_absent_symbol
    ⟨MarketData.empty.set "BTC" ⟨50000, 1, some 900000000000, "crypto", "Bitcoin"⟩,
      false, none, none⟩
    (FetchOutcome.response true (some (some []))) "10:05:00" "BTC"
    (by simp [fetchMarketData, fetchFinish, fetchStart, fetchCryptoData, buildMarketData,
      cryptoEntries])
    (by simp [stockSymbols])
    (by
      intro entries h e he
      simp only [fetchCryptoData, Option.some.injEq] at h
      rw [← h] at he
      simp at he)).1

/-- C6, as stated, fails: a first cycle stores a live BTC quote of price 50000;
a second cycle whose request fails takes the fallback values and replaces the
BTC quote by the fallback quote of price 43250. -/
theorem fetchMarketData_fallback_overwrites_live :
    (fetchMarketData DashboardState.initial
        (FetchOutcome.response true
          (some (some [("bitcoin", some ⟨50000, some 1, some 900000000000⟩)])))
        "10:00:00").marketData "BTC"
      = some ⟨50000, 1, some 900000000000, "crypto", "Bitcoin"⟩
    ∧ (fetchMarketData
        (fetchMarketData DashboardState.initial
          (FetchOutcome.response true
            (some (some [("bitcoin", some ⟨50000, some 1, some 900000000000⟩)])))
          "10:00:00")
        FetchOutcome.networkError "10:05:00").marketData "BTC"
      = some ⟨43250, 5 / 2, some 850000000000, "crypto", "Bitcoin"⟩ := by
  constructor
  · simp [fetchMarketData, fetchFinish, fetchStart, fetchCryptoData, buildMarketData,
      cryptoEntries, cryptoEntry, symbolOfCoin, cryptoIdMap, cryptoName, orZero, stockEntries,
      stockSymbols, MarketData.set, MarketData.empty]
  · simp [fetchMarketData, fetchFinish, fetchStart, fetchCryptoData, fallbackCryptoData,
      buildMarketData, cryptoEntries, cryptoEntry, symbolOfCoin, cryptoIdMap, cryptoName,
      orZero, stockEntries, stockSymbols, MarketData.set, MarketData.empty]

/-- C6, amended: whatever marketData held before (a live quote included), a
cycle in which fetchCryptoData fails and returns its static fallback values
sets the quotes of BTC, ETH, ADA and SOL to the fallback values and leaves DOT
and MATIC without a quote. -/
theorem fetchMarketData_fallback_quotes (s : DashboardState) (outcome : FetchOutcome)
    (clock : String)
    (hfail : outcome = FetchOutcome.networkError
      ∨ (∃ json, outcome = FetchOutcome.response false json)
      ∨ outcome = FetchOutcome.response true none) :
    (fetchMarketData s outcome clock).marketData "BTC"
        = some ⟨43250, 5 / 2, some 850000000000, "crypto", "Bitcoin"⟩
      ∧ (fetchMarketData s outcome clock).marketData "ETH"
        = some ⟨2680, -6 / 5, some 320000000000, "crypto", "Ethereum"⟩
      ∧ (fetchMarketData s outcome clock).marketData "ADA"
        = some ⟨13 / 25, 24 / 5, some 18000000000, "crypto", "Cardano"⟩
      ∧ (fetchMarketData s outcome clock).marketData "SOL"
        = some ⟨197 / 2, 31 / 5, some 42000000000, "crypto", "Solana"⟩
      ∧ (fetchMarketData s outcome clock).marketData "DOT" = none
      ∧ (fetchMarketData s outcome clock).marketData "MATIC" = none := by
  have hf := fetchCryptoData_of_failure outcome hfail
  simp [fetchMarketData, fetchFinish, fetchStart, hf, fallbackCryptoData,
    buildMarketData, cryptoEntries, cryptoEntry, symbolOfCoin, cryptoIdMap, cryptoName,
    orZero, stockEntries, stockSymbols, MarketData.set, MarketData.empty]

/-- C6, amended, at the scenario of the claim: a live BTC quote is seeded, the
next request fails, and BTC then carries the fallback quote of price 43250. -/
theorem fetchMarketData_fallback_quotes_witness :
    (fetchMarketData
        (fetchMarketData DashboardState.initial
          (FetchOutcome.response true
            (some (some [("bitcoin", some ⟨50000, some 1, some 900000000000⟩)])))
          "10:00:00")
        FetchOutcome.networkError "10:05:00").marketData "BTC"
      = some ⟨43250, 5 / 2, some 850000000000, "crypto", "Bitcoin"⟩ :=
  (fetchMarketData_fallback_quotes
    (fetchMarketData DashboardState.initial
      (FetchOutcome.response true
        (some (some [("bitcoin", some ⟨50000, some 1, some 900000000000⟩)])))
      "10:00:00")
    FetchOutcome.networkError "10:05:00" (Or.inl rfl)).1

/-! ### Adding and removing holdings -/

theorem parseFloat_text_zero : parseFloat "0" = some 0 := by
  simp [parseFloat, takeSign, takeDigits, digitsValue, takeExponent]

theorem parseFloat_text_one : parseFloat "1" = some 1 := by
  simp [parseFloat, takeSign, takeDigits, digitsValue, takeExponent]

theorem parseFloat_text_hundred : parseFloat "100" = some 100 := by
  simp [parseFloat, takeSign, takeDigits, digitsValue, takeExponent]

theorem parseFloat_text_minus_five : parseFloat "-5" = some (-5) := by
  simp [parseFloat, takeSign, takeDigits, digitsValue, takeExponent]

theorem parseFloat_text_half : parseFloat "0.5" = some (1 / 2) := by
  simp [parseFloat, takeSign, takeDigits, digitsValue, takeExponent]
  norm_num

theorem parseFloat_text_forty_thousand : parseFloat "40000" = some 40000 := by
  simp [parseFloat, takeSign, takeDigits, digitsValue, takeExponent]

theorem toUpperCase_DOGE : toUpperCase "DOGE" = "DOGE" := by decide

theorem toUpperCase_BTC : toUpperCase "BTC" = "BTC" := by decide

theorem handleSubmit_of_fields (now : ℕ) (portfolio : List Holding) (form : AssetForm)
    (q b : ℚ) (hs : form.symbol ≠ "") (hq : form.quantity ≠ "") (hb : form.buyPrice ≠ "")
    (hpq : parseFloat form.quantity = some q) (hpb : parseFloat form.buyPrice = some b) :
    handleSubmit now portfolio form
      = some (portfolio ++ [⟨now, toUpperCase form.symbol, form.type, q, b⟩]) := by
  simp [handleSubmit, addToPortfolio, hs, hq, hb, hpq, hpb]

/-- C7, as stated, fails: a form with quantity "0" and a form with buy price
"-5" both pass the truthiness test of handleSubmit, and addToPortfolio appends
the holding, so the holdings list changes. -/
theorem handleSubmit_accepts_nonpositive :
    handleSubmit 1700000000000 initialPortfolio ⟨"DOGE", "crypto", "0", "100"⟩
        = some (initialPortfolio ++ [⟨1700000000000, "DOGE", "crypto", 0, 100⟩])
      ∧ handleSubmit 1700000000000 initialPortfolio ⟨"DOGE", "crypto", "0", "100"⟩
        ≠ some initialPortfolio
      ∧ handleSubmit 1700000000000 initialPortfolio ⟨"DOGE", "crypto", "1", "-5"⟩
        = some (initialPortfolio ++ [⟨1700000000000, "DOGE", "crypto", 1, -5⟩])
      ∧ handleSubmit 1700000000000 initialPortfolio ⟨"DOGE", "crypto", "1", "-5"⟩
        ≠ some initialPortfolio := by
  have h1 := handleSubmit_of_fields 1700000000000 initialPortfolio
    ⟨"DOGE", "crypto", "0", "100"⟩ 0 100 (by decide) (by decide) (by decide)
    parseFloat_text_zero parseFloat_text_hundred
  have h2 := handleSubmit_of_fields 1700000000000 initialPortfolio
    ⟨"DOGE", "crypto", "1", "-5"⟩ 1 (-5) (by decide) (by decide) (by decide)
    parseFloat_text_one parseFloat_text_minus_five
  rw [toUpperCase_DOGE] at h1 h2
  refine ⟨h1, ?_, h2, ?_⟩
  · rw [h1]
    simp
  · rw [h2]
    simp

/-- C7, amended: a submission whose symbol, quantity field or buy-price field
is empty is rejected and leaves the holdings list unchanged; when the three
fields are non-empty the holding is appended with the parsed numbers, whatever
their sign, so quantity ≤ 0 and buyPrice < 0 are not rejected. -/
theorem handleSubmit_rejects_empty (now : ℕ) (portfolio : List Holding) (form : AssetForm) :
    ((form.symbol = "" ∨ form.quantity = "" ∨ form.buyPrice = "") →
        handleSubmit now portfolio form = some portfolio)
      ∧ (∀ q b : ℚ, form.symbol ≠ "" → form.quantity ≠ "" → form.buyPrice ≠ "" →
          parseFloat form.quantity = some q → parseFloat form.buyPrice = some b →
          handleSubmit now portfolio form
            = some (portfolio ++ [⟨now, toUpperCase form.symbol, form.type, q, b⟩])) := by
  constructor
  · intro h
    unfold handleSubmit
    rw [if_neg]
    intro hc
    rcases h with h | h | h
    · exact hc.1 h
    · exact hc.2.1 h
    · exact hc.2.2 h
  · intro q b hs hq hb hpq hpb
    exact handleSubmit_of_fields now portfolio form q b hs hq hb hpq hpb

/-- C7, amended, at concrete forms: an empty symbol leaves the initial
holdings as they are, and the form DOGE, "1", "-5" appends a holding. -/
theorem handleSubmit_rejects_empty_witness :
    handleSubmit 1700000000000 initialPortfolio ⟨"", "crypto", "1", "100"⟩
        = some initialPortfolio
      ∧ handleSubmit 1700000000000 initialPortfolio ⟨"DOGE", "crypto", "1", "-5"⟩
        = some (initialPortfolio
            ++ [⟨1700000000000, toUpperCase "DOGE", "crypto", 1, -5⟩]) :=
  ⟨(handleSubmit_rejects_empty 1700000000000 initialPortfolio
      ⟨"", "crypto", "1", "100"⟩).1 (Or.inl rfl),
   (handleSubmit_rejects_empty 1700000000000 initialPortfolio
      ⟨"DOGE", "crypto", "1", "-5"⟩).2 1 (-5) (by decide) (by decide) (by decide)
      parseFloat_text_one parseFloat_text_minus_five⟩

/-- C8: for an id that no holding of the list carries, removeFromPortfolio
returns the list itself, same holdings in the same order; the function is
total. -/
theorem removeFromPortfolio_absent_id (portfolio : List Holding) (id : ℕ)
    (h : ∀ item ∈ portfolio, item.id ≠ id) :
    removeFromPortfolio portfolio id = portfolio := by
  unfold removeFromPortfolio
  rw [List.filter_eq_self]
  intro item hitem
  simpa using h item hitem

/-- C8 at the initial holdings and the id 99, which none of them carries. -/
theorem removeFromPortfolio_absent_id_witness :
    (∀ item ∈ initialPortfolio, item.id ≠ 99)
      ∧ removeFromPortfolio initialPortfolio 99 = initialPortfolio :=
  ⟨by decide, removeFromPortfolio_absent_id initialPortfolio 99 (by decide)⟩

theorem removeFromPortfolio_ids_sublist (portfolio : List Holding) (id : ℕ) :
    ((removeFromPortfolio portfolio id).map Holding.id).Sublist (portfolio.map Holding.id) :=
  List.Sublist.map Holding.id (List.filter_sublist portfolio)

/-- C9, as stated, fails: with the initial holdings, removing BTC (id 1) and
adding the same holding again when the clock reads 1 gives the new holding the
id 1 of the removed one; when the clock reads 2 the new holding shares the id
of AAPL and the ids are no longer pairwise distinct. -/
theorem addToPortfolio_id_collision :
    addToPortfolio 1 (removeFromPortfolio initialPortfolio 1) "BTC" "crypto" "0.5" "40000"
        = some [⟨2, "AAPL", "stock", 10, 180⟩, ⟨3, "ETH", "crypto", 2, 2500⟩,
            ⟨4, "TSLA", "stock", 5, 250⟩, ⟨1, "BTC", "crypto", 1 / 2, 40000⟩]
      ∧ addToPortfolio 2 (removeFromPortfolio initialPortfolio 1) "BTC" "crypto" "0.5" "40000"
        = some [⟨2, "AAPL", "stock", 10, 180⟩, ⟨3, "ETH", "crypto", 2, 2500⟩,
            ⟨4, "TSLA", "stock", 5, 250⟩, ⟨2, "BTC", "crypto", 1 / 2, 40000⟩]
      ∧ ¬ ([⟨2, "AAPL", "stock", 10, 180⟩, ⟨3, "ETH", "crypto", 2, 2500⟩,
            ⟨4, "TSLA", "stock", 5, 250⟩,
            (⟨2, "BTC", "crypto", 1 / 2, 40000⟩ : Holding)].map Holding.id).Nodup := by
  have hr : removeFromPortfolio initialPortfolio 1
      = [⟨2, "AAPL", "stock", 10, 180⟩, ⟨3, "ETH", "crypto", 2, 2500⟩,
          ⟨4, "TSLA", "stock", 5, 250⟩] := by
    simp [removeFromPortfolio, initialPortfolio]
  refine ⟨?_, ?_, ?_⟩
  · rw [hr]
    simp [addToPortfolio, parseFloat_text_half, parseFloat_text_forty_thousand,
      toUpperCase_BTC]
  · rw [hr]
    simp [addToPortfolio, parseFloat_text_half, parseFloat_text_forty_thousand,
      toUpperCase_BTC]
  · simp

/-- C9, amended: when the clock reading differs from the id of every holding
of the list (h included), removing h and adding an identical holding appends a
holding whose id is the clock reading; it differs from h.id and from the id of
every other holding, and ids that were pairwise distinct stay so. -/
theorem addToPortfolio_fresh_id (portfolio : List Holding) (h : Holding) (now : ℕ)
    (quantity buyPrice : String)
    (hmem : h ∈ portfolio)
    (hfresh : ∀ g ∈ portfolio, g.id ≠ now)
    (hq : parseFloat quantity = some h.quantity)
    (hb : parseFloat buyPrice = some h.buyPrice) :
    ∃ newItem : Holding,
      addToPortfolio now (removeFromPortfolio portfolio h.id) h.symbol h.type quantity buyPrice
          = some (removeFromPortfolio portfolio h.id ++ [newItem])
        ∧ newItem.id = now
        ∧ newItem.symbol = toUpperCase h.symbol ∧ newItem.type = h.type
        ∧ newItem.quantity = h.quantity ∧ newItem.buyPrice = h.buyPrice
        ∧ newItem.id ≠ h.id
        ∧ (∀ g ∈ portfolio, newItem.id ≠ g.id)
        ∧ ((portfolio.map Holding.id).Nodup →
            ((removeFromPortfolio portfolio h.id ++ [newItem]).map Holding.id).Nodup) := by
  refine ⟨⟨now, toUpperCase h.symbol, h.type, h.quantity, h.buyPrice⟩, ?_, rfl, rfl, rfl, rfl,
    rfl, ?_, ?_, ?_⟩
  · simp [addToPortfolio, hq, hb]
  · exact fun e => hfresh h hmem e.symm
  · exact fun g hg e => hfresh g hg e.symm
  · intro hnd
    rw [List.map_append, List.nodup_append]
    refine ⟨hnd.sublist (removeFromPortfolio_ids_sublist portfolio h.id), by simp, ?_⟩
    intro a ha hb2
    simp only [List.map_cons, List.map_nil, List.mem_singleton] at hb2
    have ha2 := (removeFromPortfolio_ids_sublist portfolio h.id).subset ha
    rw [List.mem_map] at ha2
    obtain ⟨g, hg, hga⟩ := ha2
    exact hfresh g hg (by rw [hga, hb2])

/-- C9, amended, at the initial holdings: BTC (id 1) is removed and added again
when the clock reads 1700000000000. -/
theorem addToPortfolio_fresh_id_witness :
    ∃ newItem : Holding,
      addToPortfolio 1700000000000 (removeFromPortfolio initialPortfolio 1)
          "BTC" "crypto" "0.5" "40000"
          = some (removeFromPortfolio initialPortfolio 1 ++ [newItem])
        ∧ newItem.id = 1700000000000
        ∧ newItem.id ≠ 1
        ∧ (∀ g ∈ initialPortfolio, newItem.id ≠ g.id) := by
  obtain ⟨newItem, h1, h2, _, _, _, _, h3, h4, _⟩ :=
    addToPortfolio_fresh_id initialPortfolio ⟨1, "BTC", "crypto", 1 / 2, 40000⟩
      1700000000000 "0.5" "40000" (by simp [initialPortfolio]) (by decide)
      parseFloat_text_half parseFloat_text_forty_thousand
  exact ⟨newItem, h1, h2, h3, h4⟩

/-! ### Best and worst performer -/

theorem roundFixed_zero (f : ℕ) : roundFixed f 0 = 0 := by
  have h : ⌊(0 : ℚ) * 10 ^ f + 1 / 2⌋ = 0 := by
    rw [Int.floor_eq_iff]
    norm_num
  unfold roundFixed
  rw [if_neg (lt_irrefl 0), h]
  simp

theorem foldl_max_spec (xs : List ℚ) (x : ℚ) :
    xs.foldl max x ∈ x :: xs ∧ ∀ y ∈ x :: xs, y ≤ xs.foldl max x := by
  induction xs generalizing x with
  | nil => simp
  | cons a t ih =>
    obtain ⟨hmem, hub⟩ := ih (max x a)
    simp only [List.foldl_cons]
    constructor
    · rcases List.mem_cons.1 hmem with h | h
      · rw [h]
        rcases max_choice x a with hc | hc <;> rw [hc] <;> simp
      · exact List.mem_cons_of_mem x (List.mem_cons_of_mem a h)
    · intro y hy
      rcases List.mem_cons.1 hy with h | h
      · rw [h]
        exact le_trans (le_max_left x a) (hub (max x a) (List.mem_cons_self _ _))
      · rcases List.mem_cons.1 h with h2 | h2
        · rw [h2]
          exact le_trans (le_max_right x a) (hub (max x a) (List.mem_cons_self _ _))
        · exact hub y (List.mem_cons_of_mem _ h2)

theorem foldl_min_spec (xs : List ℚ) (x : ℚ) :
    xs.foldl min x ∈ x :: xs ∧ ∀ y ∈ x :: xs, xs.foldl min x ≤ y := by
  induction xs generalizing x with
  | nil => simp
  | cons a t ih =>
    obtain ⟨hmem, hlb⟩ := ih (min x a)
    simp only [List.foldl_cons]
    constructor
    · rcases List.mem_cons.1 hmem with h | h
      · rw [h]
        rcases min_choice x a with hc | hc <;> rw [hc] <;> simp
      · exact List.mem_cons_of_mem x (List.mem_cons_of_mem a h)
    · intro y hy
      rcases List.mem_cons.1 hy with h | h
      · rw [h]
        exact le_trans (hlb (min x a) (List.mem_cons_self _ _)) (min_le_left x a)
      · rcases List.mem_cons.1 h with h2 | h2
        · rw [h2]
          exact le_trans (hlb (min x a) (List.mem_cons_self _ _)) (min_le_right x a)
        · exact hlb y (List.mem_cons_of_mem _ h2)

/-- C10, as stated, fails: for the single holding AAPL without any quote the
best performer is 0, not 'N/A'; for BTC with a quote of change −5 next to AAPL
without a quote the best performer is 0, not −5; for BTC with change 5 next to
AAPL without a quote the worst performer is 0, not 5. -/
theorem bestPerformer_counts_absent_as_zero :
    bestPerformer [⟨2, "AAPL", "stock", 10, 180⟩] MarketData.empty = some (JSNum.fin 0)
      ∧ bestPerformer [⟨1, "BTC", "crypto", 1 / 2, 40000⟩, ⟨2, "AAPL", "stock", 10, 180⟩]
          (MarketData.empty.set "BTC" ⟨43250, -5, none, "crypto", "Bitcoin"⟩)
        = some (JSNum.fin 0)
      ∧ worstPerformer [⟨1, "BTC", "crypto", 1 / 2, 40000⟩, ⟨2, "AAPL", "stock", 10, 180⟩]
          (MarketData.empty.set "BTC" ⟨43250, 5, none, "crypto", "Bitcoin"⟩)
        = some (JSNum.fin 0) := by
  refine ⟨?_, ?_, ?_⟩
  · simp [bestPerformer, mathMax, changeOrZero, MarketData.empty, JSNum.toFixed,
      roundFixed_zero]
  · simp [bestPerformer, mathMax, changeOrZero, MarketData.empty, MarketData.set,
      JSNum.toFixed, roundFixed_zero]
  · simp [worstPerformer, mathMin, changeOrZero, MarketData.empty, MarketData.set,
      JSNum.toFixed, roundFixed_zero]

/-- C10, amended: the best (worst) performer shown is the maximum (minimum),
rounded to one decimal, over all holdings of the quote's change, a holding
whose quote is absent counting as change 0; it is 'N/A' exactly when the
holdings list is empty, and the computation is total. -/
theorem bestPerformer_spec (portfolio : List Holding) (marketData : MarketData) :
    (bestPerformer portfolio marketData = none ↔ portfolio = [])
      ∧ (worstPerformer portfolio marketData = none ↔ portfolio = [])
      ∧ (portfolio ≠ [] →
          ∃ hi lo : ℚ,
            bestPerformer portfolio marketData = some (JSNum.fin (roundFixed 1 hi))
            ∧ worstPerformer portfolio marketData = some (JSNum.fin (roundFixed 1 lo))
            ∧ hi ∈ portfolio.map (fun h : Holding =>
                match marketData h.symbol with
                | some q => q.change
                | none => 0)
            ∧ (∀ h ∈ portfolio,
                (match marketData h.symbol with
                  | some q => q.change
                  | none => 0) ≤ hi)
            ∧ lo ∈ portfolio.map (fun h : Holding =>
                match marketData h.symbol with
                | some q => q.change
                | none => 0)
            ∧ (∀ h ∈ portfolio,
                lo ≤ (match marketData h.symbol with
                  | some q => q.change
                  | none => 0))) := by
  refine ⟨?_, ?_, ?_⟩
  · cases portfolio <;> simp [bestPerformer]
  · cases portfolio <;> simp [worstPerformer]
  · intro hne
    cases portfolio with
    | nil => exact absurd rfl hne
    | cons a t =>
      have hmax := foldl_max_spec (t.map (changeOrZero marketData)) (changeOrZero marketData a)
      have hmin := foldl_min_spec (t.map (changeOrZero marketData)) (changeOrZero marketData a)
      refine ⟨(t.map (changeOrZero marketData)).foldl max (changeOrZero marketData a),
        (t.map (changeOrZero marketData)).foldl min (changeOrZero marketData a),
        ?_, ?_, ?_, ?_, ?_, ?_⟩
      · simp [bestPerformer, mathMax, JSNum.toFixed]
      · simp [worstPerformer, mathMin, JSNum.toFixed]
      · exact hmax.1
      · intro h hh
        exact hmax.2 (changeOrZero marketData h)
          (List.mem_map_of_mem (changeOrZero marketData) hh)
      · exact hmin.1
      · intro h hh
        exact hmin.2 (changeOrZero marketData h)
          (List.mem_map_of_mem (changeOrZero marketData) hh)

/-- C10, amended, at the initial holdings with no quote at all: both cells
hold a number and not 'N/A'. -/
theorem bestPerformer_spec_witness :
    ∃ hi lo : ℚ,
      bestPerformer initialPortfolio MarketData.empty = some (JSNum.fin (roundFixed 1 hi))
      ∧ worstPerformer initialPortfolio MarketData.empty
          = some (JSNum.fin (roundFixed 1 lo)) := by
  obtain ⟨hi, lo, h1, h2, _⟩ :=
    (bestPerformer_spec initialPortfolio MarketData.empty).2.2 (by simp [initialPortfolio])
  exact ⟨hi, lo, h1, h2⟩

/-! ### Portfolio distribution -/

theorem orZero_priceField_mul (marketData : MarketData) (h : Holding) :
    orZero (priceField marketData h.symbol) * h.quantity = currentValue marketData h := by
  rw [orZero_priceField]
  rfl

theorem portfolioDistribution_values (portfolio : List Holding) (marketData : MarketData) :
    (portfolioDistribution portfolio marketData).map DistributionEntry.value
      = portfolio.map (currentValue marketData) := by
  unfold portfolioDistribution
  simp only [List.map_map]
  apply List.map_congr_left
  intro h _
  exact orZero_priceField_mul marketData h

theorem sum_map_div_mul {α : Type} (f : α → ℚ) (c d : ℚ) (l : List α) :
    (l.map (fun a => f a / c * d)).sum = (l.map f).sum / c * d := by
  induction l with
  | nil => simp
  | cons a t ih =>
    simp only [List.map_cons, List.sum_cons, ih]
    ring

theorem roundFixed_one_error (x : ℚ) : |roundFixed 1 x - x| ≤ 1 / 20 := by
  unfold roundFixed
  by_cases hx : x < 0
  · rw [if_pos hx]
    have h1 := Int.floor_le (-x * 10 ^ 1 + 1 / 2)
    have h2 := Int.lt_floor_add_one (-x * 10 ^ 1 + 1 / 2)
    rw [abs_le]
    constructor <;> linarith
  · rw [if_neg hx]
    have h1 := Int.floor_le (x * 10 ^ 1 + 1 / 2)
    have h2 := Int.lt_floor_add_one (x * 10 ^ 1 + 1 / 2)
    rw [abs_le]
    constructor <;> linarith

theorem rounded_sum_error {α : Type} (f : α → ℚ) (l : List α) :
    |(l.map (fun a => roundFixed 1 (f a))).sum - (l.map f).sum| ≤ (l.length : ℚ) / 20 := by
  induction l with
  | nil => simp
  | cons a t ih =>
    simp only [List.map_cons, List.sum_cons, List.length_cons, Nat.cast_add, Nat.cast_one]
    have ha := roundFixed_one_error (f a)
    rw [abs_le] at ha ih ⊢
    constructor <;> linarith [ha.1, ha.2, ih.1, ih.2]

/-- C13, as stated, fails: for the single holding AAPL without any quote the
total value is 0 and portfolioDistribution is not empty; it has one entry, of
value 0 and percentage 0.0. -/
theorem portfolioDistribution_nonempty_at_zero_value :
    calculatePortfolioValue [⟨2, "AAPL", "stock", 10, 180⟩] MarketData.empty = 0
      ∧ portfolioDistribution [⟨2, "AAPL", "stock", 10, 180⟩] MarketData.empty
        = [⟨"AAPL", 0, JSNum.fin 0⟩]
      ∧ portfolioDistribution [⟨2, "AAPL", "stock", 10, 180⟩] MarketData.empty ≠ [] := by
  have hv : calculatePortfolioValue [⟨2, "AAPL", "stock", 10, 180⟩] MarketData.empty = 0 := by
    simp [calculatePortfolioValue, priceField, MarketData.empty, orZero]
  have hd : portfolioDistribution [⟨2, "AAPL", "stock", 10, 180⟩] MarketData.empty
      = [⟨"AAPL", 0, JSNum.fin 0⟩] := by
    unfold portfolioDistribution
    rw [hv]
    simp [priceField, MarketData.empty, orZero]
  refine ⟨hv, hd, ?_⟩
  rw [hd]
  simp

/-- C13, amended: when the total value is 0 or less, the Portfolio
Distribution panel shows no distribution (its placeholder text is rendered),
while portfolioDistribution itself still has one entry per holding, each with
percentage 0.0. -/
theorem distributionPanel_hidden_at_zero_value (portfolio : List Holding)
    (marketData : MarketData)
    (hzero : calculatePortfolioValue portfolio marketData ≤ 0) :
    distributionPanel portfolio marketData = none
      ∧ (portfolioDistribution portfolio marketData).length = portfolio.length
      ∧ ∀ e ∈ portfolioDistribution portfolio marketData, e.percentage = JSNum.fin 0 := by
  have hn : ¬ calculatePortfolioValue portfolio marketData > 0 := not_lt.2 hzero
  refine ⟨?_, ?_, ?_⟩
  · unfold distributionPanel
    rw [if_neg hn]
  · simp [portfolioDistribution]
  · intro e he
    unfold portfolioDistribution at he
    simp only [List.mem_map] at he
    obtain ⟨h, _, rfl⟩ := he
    simp only [if_neg hn]

/-- C13, amended, at the initial holdings with no quote at all: the panel
shows no distribution and portfolioDistribution has four entries. -/
theorem distributionPanel_hidden_at_zero_value_witness :
    distributionPanel initialPortfolio MarketData.empty = none
      ∧ (portfolioDistribution initialPortfolio MarketData.empty).length = 4 := by
  have h := distributionPanel_hidden_at_zero_value initialPortfolio MarketData.empty
    (by simp [calculatePortfolioValue, initialPortfolio, priceField, MarketData.empty, orZero])
  exact ⟨h.1, h.2.1⟩

/-- C14: portfolioDistribution has one entry per holding, in holdings order,
and the sum of its value fields equals calculatePortfolioValue. -/
theorem portfolioDistribution_value_sum (portfolio : List Holding) (marketData : MarketData) :
    ((portfolioDistribution portfolio marketData).map DistributionEntry.value).sum
        = calculatePortfolioValue portfolio marketData
      ∧ (portfolioDistribution portfolio marketData).map DistributionEntry.name
        = portfolio.map Holding.symbol
      ∧ (portfolioDistribution portfolio marketData).map DistributionEntry.value
        = portfolio.map (fun h : Holding =>
            (match marketData h.symbol with
              | some q => q.price
              | none => 0) * h.quantity) := by
  refine ⟨?_, ?_, ?_⟩
  · rw [portfolioDistribution_values, portfolioValue_eq_sum]
  · simp [portfolioDistribution]
  · rw [portfolioDistribution_values]
    rfl

/-! ### Refresh cycles -/

theorem count_eraseIdx_of_get (l : List Trigger) (i : ℕ) (t a : Trigger)
    (h : l.get? i = some t) :
    (l.eraseIdx i).count a + (if t = a then 1 else 0) = l.count a := by
  induction l generalizing i with
  | nil => simp at h
  | cons x xs ih =>
    cases i with
    | zero =>
      simp only [List.get?_cons_zero, Option.some.injEq] at h
      subst h
      by_cases hxa : x = a <;> simp [List.count_cons, hxa]
    | succ j =>
      simp only [List.get?_cons_succ] at h
      have := ih j h
      simp only [List.eraseIdx_cons_succ, List.count_cons]
      omega

theorem reachable_invariant (s : Scheduler) (h : Reachable s) :
    (s.refreshing = true → s.pending.count Trigger.manualRefresh = 1)
      ∧ (s.refreshing = false → s.pending.count Trigger.manualRefresh = 0) := by
  induction h with
  | mount => simp [Scheduler.trigger, Scheduler.initial]
  | tick s _ ih => simpa [Scheduler.trigger] using ih
  | click s _ ih =>
    unfold Scheduler.trigger
    by_cases hg : (loadingScreen s.dash || s.refreshing) = true
    · simp only [hg, if_true]
      exact ih
    · simp only [hg]
      have hr : s.refreshing = false := by
        cases hs : s.refreshing with
        | false => rfl
        | true => simp [hs] at hg
      simp [ih.2 hr]
  | complete s i outcome clock _ ih =>
    unfold Scheduler.complete
    cases hget : s.pending.get? i with
    | none => exact ih
    | some t =>
      have hc := count_eraseIdx_of_get s.pending i t Trigger.manualRefresh hget
      by_cases ht : t = Trigger.manualRefresh
      · simp only [ht, if_true] at hc ⊢
        have hle : s.pending.count Trigger.manualRefresh ≤ 1 := by
          cases hs : s.refreshing with
          | false => rw [ih.2 hs]; omega
          | true => rw [ih.1 hs]
        constructor
        · intro h; simp at h
        · intro _; omega
      · simp only [ht, if_false] at hc ⊢
        constructor
        · intro h; have := ih.1 h; omega
        · intro h; have := ih.2 h; omega

theorem reachable_ticks (n : ℕ) :
    ∃ s : Scheduler, Reachable s ∧ s.pending.length = n + 1 := by
  induction n with
  | zero => exact ⟨_, Reachable.mount, by simp [Scheduler.trigger, Scheduler.initial]⟩
  | succ k ih =>
    obtain ⟨s, hs, hl⟩ := ih
    exact ⟨_, Reachable.tick s hs, by simp [Scheduler.trigger, hl]⟩

theorem tickInFlight_reachable : Reachable tickInFlight :=
  Reachable.tick _ (Reachable.complete _ 0 _ _ Reachable.mount)

theorem tickInFlight_pending : tickInFlight.pending = [Trigger.intervalTick] := by
  simp [tickInFlight, Scheduler.trigger, Scheduler.complete, Scheduler.initial]

theorem tickInFlight_refreshing : tickInFlight.refreshing = false := by
  simp [tickInFlight, Scheduler.trigger, Scheduler.complete, Scheduler.initial]

theorem tickInFlight_loadingScreen : loadingScreen tickInFlight.dash = false := by
  simp [tickInFlight, loadingScreen, keyCount, marketDataKeys, Scheduler.trigger,
    Scheduler.complete, Scheduler.initial, fetchStart, fetchFinish, fetchCryptoData,
    fallbackCryptoData, buildMarketData, cryptoEntries, cryptoEntry, symbolOfCoin, cryptoIdMap,
    stockEntries, stockSymbols, MarketData.set, MarketData.empty, DashboardState.initial]

theorem tickInFlight_click_pending :
    (tickInFlight.trigger Trigger.manualRefresh).pending
      = [Trigger.intervalTick, Trigger.manualRefresh] := by
  rw [Scheduler.trigger]
  simp only [tickInFlight_loadingScreen, tickInFlight_refreshing, Bool.or_self,
    Bool.false_eq_true, if_false, tickInFlight_pending]
  rfl

theorem tickInFlight_click_refreshing :
    (tickInFlight.trigger Trigger.manualRefresh).refreshing = true := by
  rw [Scheduler.trigger]
  simp only [tickInFlight_loadingScreen, tickInFlight_refreshing, Bool.or_self,
    Bool.false_eq_true, if_false]

/-- C15, as stated, fails: the initial load completes, an interval tick then
starts a cycle, and a click on the refresh button (rendered, since marketData
is not empty, and enabled, since refreshing is false) starts a second cycle
while the first is still in flight, and sets refreshing. -/
theorem trigger_starts_second_cycle :
    Reachable (tickInFlight.trigger Trigger.manualRefresh)
      ∧ tickInFlight.pending = [Trigger.intervalTick]
      ∧ (tickInFlight.trigger Trigger.manualRefresh).pending
        = [Trigger.intervalTick, Trigger.manualRefresh]
      ∧ tickInFlight.refreshing = false
      ∧ (tickInFlight.trigger Trigger.manualRefresh).refreshing = true :=
  ⟨Reachable.click _ tickInFlight_reachable, tickInFlight_pending, tickInFlight_click_pending,
    tickInFlight_refreshing, tickInFlight_click_refreshing⟩

/-- C15, amended: fetchMarketData has no in-flight guard. In every reachable
state an interval tick starts a fetch cycle whatever is in flight (loading is
set, error is cleared, marketData is kept), a click starts one whenever the
button is rendered and no manual refresh is in flight, and any number of
cycles can be in flight. Only manual refreshes are coalesced: refreshing holds
exactly while a manual refresh is in flight, at most one is in flight, and a
click arriving meanwhile starts no cycle and changes no state. -/
theorem reachable_trigger_spec (s : Scheduler) (h : Reachable s) :
    (s.refreshing = true ↔ Trigger.manualRefresh ∈ s.pending)
      ∧ s.pending.count Trigger.manualRefresh ≤ 1
      ∧ (Trigger.manualRefresh ∈ s.pending → s.trigger Trigger.manualRefresh = s)
      ∧ (Trigger.manualRefresh ∉ s.pending → loadingScreen s.dash = false →
          (s.trigger Trigger.manualRefresh).pending = s.pending ++ [Trigger.manualRefresh]
          ∧ (s.trigger Trigger.manualRefresh).refreshing = true)
      ∧ (s.trigger Trigger.intervalTick).pending = s.pending ++ [Trigger.intervalTick]
      ∧ (s.trigger Trigger.intervalTick).refreshing = s.refreshing
      ∧ (s.trigger Trigger.intervalTick).dash.loading = true
      ∧ (s.trigger Trigger.intervalTick).dash.error = none
      ∧ (s.trigger Trigger.intervalTick).dash.marketData = s.dash.marketData
      ∧ (∀ n : ℕ, ∃ s0 : Scheduler, Reachable s0 ∧ s0.pending.length = n + 1) := by
  have hinv := reachable_invariant s h
  have hiff : s.refreshing = true ↔ Trigger.manualRefresh ∈ s.pending := by
    rw [← List.count_pos_iff]
    constructor
    · intro hr; rw [hinv.1 hr]; omega
    · intro hpos
      cases hs : s.refreshing with
      | true => rfl
      | false => rw [hinv.2 hs] at hpos; omega
  refine ⟨hiff, ?_, ?_, ?_, ?_, ?_, ?_, ?_, ?_, reachable_ticks⟩
  · cases hs : s.refreshing with
    | true => rw [hinv.1 hs]
    | false => rw [hinv.2 hs]; omega
  · intro hm
    have hr := hiff.2 hm
    simp [Scheduler.trigger, hr]
  · intro hm hl
    have hr : s.refreshing = false := by
      cases hs : s.refreshing with
      | false => rfl
      | true => exact absurd (hiff.1 hs) hm
    simp [Scheduler.trigger, hr, hl]
  · simp [Scheduler.trigger]
  · simp [Scheduler.trigger]
  · simp [Scheduler.trigger, fetchStart]
  · simp [Scheduler.trigger, fetchStart]
  · simp [Scheduler.trigger, fetchStart]

/-- C15, amended, at a concrete run: with the cycle of a tick and the cycle of
a click in flight, a second click changes nothing and one more tick puts a
third cycle in flight. -/
theorem reachable_trigger_spec_witness :
    (tickInFlight.trigger Trigger.manualRefresh).trigger Trigger.manualRefresh
        = tickInFlight.trigger Trigger.manualRefresh
      ∧ ((tickInFlight.trigger Trigger.manualRefresh).trigger Trigger.intervalTick).pending
        = (tickInFlight.trigger Trigger.manualRefresh).pending ++ [Trigger.intervalTick] :=
  ⟨(reachable_trigger_spec (tickInFlight.trigger Trigger.manualRefresh)
      (Reachable.click _ tickInFlight_reachable)).2.2.1
      (by rw [tickInFlight_click_pending]; simp),
   (reachable_trigger_spec (tickInFlight.trigger Trigger.manualRefresh)
      (Reachable.click _ tickInFlight_reachable)).2.2.2.2.1⟩

/-- C16: when a fetchMarketData cycle ends in its error branch (the try block
throws), marketData after the cycle equals marketData before it, the error
field holds the non-empty message of line 232, loading is false and lastUpdate
is unchanged; the same holds for the resumed part of the cycle from any state
it resumes in. -/
theorem fetchMarketData_error_branch (s : DashboardState) (outcome : FetchOutcome)
    (clock : String)
    (herr : buildMarketData (fetchCryptoData outcome) = none) :
    (fetchMarketData s outcome clock).marketData = s.marketData
      ∧ (fetchMarketData s outcome clock).error
        = some "Failed to fetch market data. Using cached data."
      ∧ (∃ msg, (fetchMarketData s outcome clock).error = some msg ∧ msg ≠ "")
      ∧ (fetchMarketData s outcome clock).loading = false
      ∧ (fetchMarketData s outcome clock).lastUpdate = s.lastUpdate
      ∧ (fetchFinish s outcome clock).marketData = s.marketData := by
  unfold fetchMarketData fetchFinish fetchStart
  rw [herr]
  refine ⟨rfl, rfl, ⟨_, rfl, by decide⟩, rfl, rfl, rfl⟩

/-- C16 at a concrete cycle: a live BTC quote is cached, the next response is
ok but its object holds `null` for bitcoin, so the try block throws; the BTC
quote is still there, the message is set and loading is false. -/
theorem fetchMarketData_error_branch_witness :
    (fetchMarketData
        ⟨MarketData.empty.set "BTC" ⟨50000, 1, some 900000000000, "crypto", "Bitcoin"⟩,
          false, none, none⟩
        (FetchOutcome.response true (some (some [("bitcoin", none)])))
        "10:05:00").marketData "BTC"
        = some ⟨50000, 1, some 900000000000, "crypto", "Bitcoin"⟩
      ∧ (fetchMarketData
          ⟨MarketData.empty.set "BTC" ⟨50000, 1, some 900000000000, "crypto", "Bitcoin"⟩,
            false, none, none⟩
          (FetchOutcome.response true (some (some [("bitcoin", none)])))
          "10:05:00").loading = false := by
  have h := fetchMarketData_error_branch
    ⟨MarketData.empty.set "BTC" ⟨50000, 1, some 900000000000, "crypto", "Bitcoin"⟩,
      false, none, none⟩
    (FetchOutcome.response true (some (some [("bitcoin", none)]))) "10:05:00"
    (by simp [fetchCryptoData, buildMarketData, cryptoEntries, cryptoEntry, symbolOfCoin,
      cryptoIdMap])
  refine ⟨?_, h.2.2.2.1⟩
  rw [h.1]
  simp [MarketData.set]

/-! ### Per-holding figures, signs and total cost -/

theorem currentValue_nonneg (marketData : MarketData) (h : Holding)
    (hq : 0 ≤ h.quantity) (hp : ∀ symbol q, marketData symbol = some q → 0 ≤ q.price) :
    0 ≤ currentValue marketData h := by
  unfold currentValue quotePrice
  cases hm : marketData h.symbol with
  | none => simp
  | some q => exact mul_nonneg (hp h.symbol q hm) hq

/-- C18: when every holding has quantity ≥ 0 and every quote has price ≥ 0,
the current value of each holding (price or 0, times quantity) is ≥ 0, so are
the value fields of portfolioDistribution, and calculatePortfolioValue is
≥ 0. -/
theorem calculatePortfolioValue_nonneg (portfolio : List Holding) (marketData : MarketData)
    (hq : ∀ h ∈ portfolio, 0 ≤ h.quantity)
    (hp : ∀ symbol q, marketData symbol = some q → 0 ≤ q.price) :
    (∀ h ∈ portfolio,
        0 ≤ (match marketData h.symbol with
          | some q => q.price
          | none => 0) * h.quantity)
      ∧ (∀ e ∈ portfolioDistribution portfolio marketData, 0 ≤ e.value)
      ∧ 0 ≤ calculatePortfolioValue portfolio marketData := by
  have hcv : ∀ h ∈ portfolio, 0 ≤ currentValue marketData h :=
    fun h hh => currentValue_nonneg marketData h (hq h hh) hp
  refine ⟨hcv, ?_, ?_⟩
  · intro e he
    have hmem : e.value ∈ (portfolioDistribution portfolio marketData).map
        DistributionEntry.value := List.mem_map_of_mem DistributionEntry.value he
    rw [portfolioDistribution_values, List.mem_map] at hmem
    obtain ⟨h, hh, hv⟩ := hmem
    rw [← hv]
    exact hcv h hh
  · rw [portfolioValue_eq_sum]
    apply List.sum_nonneg
    intro x hx
    rw [List.mem_map] at hx
    obtain ⟨h, hh, hv⟩ := hx
    rw [← hv]
    exact hcv h hh

/-- C18 at the initial holdings with BTC quoted at 43250 and nothing else
quoted: the total value is ≥ 0. -/
theorem calculatePortfolioValue_nonneg_witness :
    0 ≤ calculatePortfolioValue initialPortfolio
      (MarketData.empty.set "BTC" ⟨43250, 5 / 2, some 850000000000, "crypto", "Bitcoin"⟩) :=
  (calculatePortfolioValue_nonneg initialPortfolio
    (MarketData.empty.set "BTC" ⟨43250, 5 / 2, some 850000000000, "crypto", "Bitcoin"⟩)
    (by
      intro h hh
      simp only [initialPortfolio, List.mem_cons, List.mem_singleton, List.not_mem_nil,
        or_false] at hh
      rcases hh with rfl | rfl | rfl | rfl <;> norm_num)
    (by
      intro symbol q hq
      unfold MarketData.set MarketData.empty at hq
      by_cases hs : symbol = "BTC"
      · rw [if_pos hs] at hq
        injection hq with hq
        rw [← hq]
        norm_num
      · rw [if_neg hs] at hq
        exact absurd hq (by simp))).2.2

/-! ### Double-precision arithmetic -/

theorem roundHalfEven_error (m : ℚ) : |(roundHalfEven m : ℚ) - m| ≤ 1 / 2 := by
  have h1 := Int.floor_le m
  have h2 := Int.lt_floor_add_one m
  unfold roundHalfEven
  split_ifs with ha hb hc
  · rw [abs_le]; constructor <;> linarith
  · rw [abs_le]; push_cast; constructor <;> linarith
  · rw [abs_le]; constructor <;> linarith
  · rw [abs_le]; push_cast; constructor <;> linarith

theorem roundHalfEven_of_near (m : ℚ) (n : ℤ) (h : |m - n| < 1 / 2) :
    roundHalfEven m = n := by
  rw [abs_lt] at h
  have hfl : ⌊m⌋ = n ∨ ⌊m⌋ = n - 1 := by
    have h1 : n - 1 ≤ ⌊m⌋ := by
      rw [Int.le_floor]; push_cast; linarith
    have h2 : ⌊m⌋ < n + 1 := by
      rw [Int.floor_lt]; push_cast; linarith
    omega
  unfold roundHalfEven
  rcases hfl with hf | hf
  · have : m - ⌊m⌋ < 1 / 2 := by rw [hf]; linarith
    rw [if_pos this, hf]
  · have h3 : ¬ m - ⌊m⌋ < 1 / 2 := by rw [hf]; push_cast; linarith
    have h4 : 1 / 2 < m - ⌊m⌋ := by rw [hf]; push_cast; linarith
    rw [if_neg h3, if_pos h4, hf]; ring

theorem two_zpow_pos (e : ℤ) : (0 : ℚ) < (2 : ℚ) ^ e := zpow_pos (by norm_num) e

theorem roundDouble_zero : roundDouble 0 = 0 := by simp [roundDouble]

theorem roundDouble_error (x : ℚ) : |roundDouble x - x| ≤ |x| / 2 ^ 53 := by
  by_cases hx : x = 0
  · simp [hx, roundDouble]
  · unfold roundDouble
    rw [if_neg hx]
    have habs : 0 < |x| := abs_pos.2 hx
    have hlog := Int.zpow_log_le_self (b := 2) (by norm_num) habs
    set e := Int.log 2 |x| with he
    have hu : (0 : ℚ) < (2 : ℚ) ^ (e - 52) := two_zpow_pos _
    have hr := roundHalfEven_error (x / (2 : ℚ) ^ (e - 52))
    have hsplit : (2 : ℚ) ^ e = (2 : ℚ) ^ (e - 52) * 2 ^ 52 := by
      rw [← zpow_natCast (2 : ℚ) 52, ← zpow_add₀ (by norm_num : (2 : ℚ) ≠ 0)]
      congr 1
      push_cast
      ring
    have key : (roundHalfEven (x / (2 : ℚ) ^ (e - 52)) : ℚ) * (2 : ℚ) ^ (e - 52) - x
        = ((roundHalfEven (x / (2 : ℚ) ^ (e - 52)) : ℚ) - x / (2 : ℚ) ^ (e - 52))
          * (2 : ℚ) ^ (e - 52) := by
      field_simp
    rw [key, abs_mul, abs_of_pos hu]
    have h1 : |(roundHalfEven (x / (2 : ℚ) ^ (e - 52)) : ℚ) - x / (2 : ℚ) ^ (e - 52)|
        * (2 : ℚ) ^ (e - 52) ≤ 1 / 2 * (2 : ℚ) ^ (e - 52) :=
      mul_le_mul_of_nonneg_right hr hu.le
    have h2 : (1 : ℚ) / 2 * (2 : ℚ) ^ (e - 52) ≤ |x| / 2 ^ 53 := by
      rw [le_div_iff₀ (by positivity)]
      have : (1 : ℚ) / 2 * (2 : ℚ) ^ (e - 52) * 2 ^ 53 = (2 : ℚ) ^ (e - 52) * 2 ^ 52 := by
        norm_num
        ring
      rw [this, ← hsplit]
      exact_mod_cast hlog
    linarith

theorem roundDouble_eq (x : ℚ) (e n : ℤ) (hlo : (2 : ℚ) ^ e ≤ |x|)
    (hhi : |x| < (2 : ℚ) ^ (e + 1)) (hn : |x / (2 : ℚ) ^ (e - 52) - n| < 1 / 2) :
    roundDouble x = n * (2 : ℚ) ^ (e - 52) := by
  have habs : 0 < |x| := lt_of_lt_of_le (two_zpow_pos e) hlo
  have hx : x ≠ 0 := abs_pos.1 habs
  have hlog : Int.log 2 |x| = e := by
    apply le_antisymm
    · have := (Int.lt_zpow_iff_log_lt (b := 2) (by norm_num) habs (x := e + 1)).1
        (by exact_mod_cast hhi)
      omega
    · exact (Int.zpow_le_iff_le_log (b := 2) (by norm_num) habs).1 (by exact_mod_cast hlo)
  unfold roundDouble
  rw [if_neg hx, hlog, roundHalfEven_of_near _ n hn]

theorem roundDouble_nonneg (x : ℚ) (hx : 0 ≤ x) : 0 ≤ roundDouble x := by
  have h := roundDouble_error x
  rw [abs_of_nonneg hx, abs_le] at h
  have : x / 2 ^ 53 ≤ x := div_le_self hx (by norm_num)
  linarith [h.1]

theorem roundDouble_eq_zero_iff (x : ℚ) : roundDouble x = 0 ↔ x = 0 := by
  constructor
  · intro h
    by_contra hx
    have he := roundDouble_error x
    rw [h, zero_sub, abs_neg] at he
    have hpos : 0 < |x| := abs_pos.2 hx
    have : |x| / 2 ^ 53 < |x| := div_lt_self hpos (by norm_num)
    linarith
  · intro h
    rw [h, roundDouble_zero]

theorem abs_roundDouble_le (x : ℚ) : |roundDouble x| ≤ (1 + 1 / 2 ^ 53) * |x| := by
  have h := roundDouble_error x
  have h2 : |roundDouble x| ≤ |roundDouble x - x| + |x| := by
    have := abs_add (roundDouble x - x) x
    simpa using this
  have h3 : (1 + 1 / 2 ^ 53) * |x| = |x| / 2 ^ 53 + |x| := by ring
  linarith

theorem roundDouble_exact (m k : ℤ) (hm : |m| < 2 ^ 53) :
    roundDouble ((m : ℚ) * (2 : ℚ) ^ k) = (m : ℚ) * (2 : ℚ) ^ k := by
  by_cases hm0 : m = 0
  · simp [hm0, roundDouble_zero]
  · have ha : 0 < m.natAbs := Int.natAbs_pos.2 hm0
    have hlo := Nat.pow_log_le_self 2 ha.ne'
    have hhi := Nat.lt_pow_succ_log_self (by norm_num : 1 < 2) m.natAbs
    have hlt : m.natAbs < 2 ^ 53 := by
      have : (m.natAbs : ℤ) < 2 ^ 53 := by rw [Int.natCast_natAbs]; exact hm
      exact_mod_cast this
    have hj : Nat.log 2 m.natAbs ≤ 52 := by
      by_contra hc
      push_neg at hc
      have : 2 ^ 53 ≤ 2 ^ Nat.log 2 m.natAbs := Nat.pow_le_pow_right (by norm_num) hc
      omega
    set j := Nat.log 2 m.natAbs with hjdef
    have habsq : |(m : ℚ)| = (m.natAbs : ℚ) := by
      rw [Nat.cast_natAbs, Int.cast_abs]
    have hk : (0 : ℚ) < (2 : ℚ) ^ k := two_zpow_pos k
    have hloq : ((2 : ℚ) ^ j) ≤ (m.natAbs : ℚ) := by exact_mod_cast hlo
    have hhiq : (m.natAbs : ℚ) < (2 : ℚ) ^ (j + 1) := by exact_mod_cast hhi
    have hexp : (2 : ℚ) ^ ((j : ℤ) + k - 52) = (2 : ℚ) ^ k / (2 : ℚ) ^ (52 - j) := by
      have : ((j : ℤ) + k - 52) = k - ((52 - j : ℕ) : ℤ) := by
        rw [Nat.cast_sub hj]; push_cast; ring
      rw [this, zpow_sub₀ (by norm_num : (2 : ℚ) ≠ 0), zpow_natCast]
    have hpd : (0 : ℚ) < (2 : ℚ) ^ (52 - j) := by positivity
    rw [roundDouble_eq ((m : ℚ) * (2 : ℚ) ^ k) ((j : ℤ) + k) (m * 2 ^ (52 - j))]
    · rw [hexp]
      push_cast
      field_simp
      ring
    · rw [abs_mul, abs_of_pos hk, habsq, zpow_add₀ (by norm_num : (2 : ℚ) ≠ 0), zpow_natCast]
      exact mul_le_mul_of_nonneg_right hloq hk.le
    · rw [abs_mul, abs_of_pos hk, habsq]
      have : (2 : ℚ) ^ ((j : ℤ) + k + 1) = (2 : ℚ) ^ (j + 1) * (2 : ℚ) ^ k := by
        have h1 : ((j : ℤ) + k + 1) = ((j + 1 : ℕ) : ℤ) + k := by push_cast; ring
        rw [h1, zpow_add₀ (by norm_num : (2 : ℚ) ≠ 0), zpow_natCast]
      rw [this]
      exact mul_lt_mul_of_pos_right hhiq hk
    · rw [hexp]
      have : (m : ℚ) * (2 : ℚ) ^ k / ((2 : ℚ) ^ k / (2 : ℚ) ^ (52 - j))
          - ((m * 2 ^ (52 - j) : ℤ) : ℚ) = 0 := by
        push_cast
        field_simp
        ring
      rw [this]
      norm_num

theorem roundDouble_intCast (m : ℤ) (hm : |m| < 2 ^ 53) : roundDouble (m : ℚ) = (m : ℚ) := by
  have := roundDouble_exact m 0 hm
  simpa using this


theorem pow_sub_one_nonneg (n : ℕ) : (0 : ℚ) ≤ (1 + 1 / 2 ^ 53) ^ n - 1 := by
  have : (1 : ℚ) ≤ (1 + 1 / 2 ^ 53) ^ n := one_le_pow₀ (by norm_num)
  linarith

theorem pow_sub_one_le (n : ℕ) (hn : n ≤ 2 ^ 52) :
    (1 + 1 / 2 ^ 53 : ℚ) ^ n - 1 ≤ 2 * n / 2 ^ 53 := by
  induction n with
  | zero => simp
  | succ k ih =>
    have hk : k ≤ 2 ^ 52 := by omega
    have h1 := ih hk
    have hkq : (k : ℚ) ≤ 4503599627370496 := by
      have : k ≤ 4503599627370496 := by omega
      exact_mod_cast this
    rw [pow_succ]
    push_cast
    have h2 : (1 + 1 / 2 ^ 53 : ℚ) ^ k ≤ 1 + 2 * k / 2 ^ 53 := by linarith
    have h3 : (1 + 1 / 2 ^ 53 : ℚ) ^ k * (1 + 1 / 2 ^ 53)
        ≤ (1 + 2 * k / 2 ^ 53) * (1 + 1 / 2 ^ 53) :=
      mul_le_mul_of_nonneg_right h2 (by norm_num)
    have h4 : (1 + 2 * (k : ℚ) / 2 ^ 53) * (1 + 1 / 2 ^ 53) - 1
        ≤ 2 * ((k : ℚ) + 1) / 2 ^ 53 := by
      have : (1 + 2 * (k : ℚ) / 2 ^ 53) * (1 + 1 / 2 ^ 53) - 1
          = 2 * (k : ℚ) / 2 ^ 53 + 1 / 2 ^ 53 + 2 * (k : ℚ) / 2 ^ 53 / 2 ^ 53 := by ring
      rw [this]
      have : 2 * (k : ℚ) / 2 ^ 53 / 2 ^ 53 ≤ 1 / 2 ^ 53 := by
        rw [div_le_div_iff_of_pos_right (by norm_num), div_le_iff₀ (by norm_num)]
        norm_num
        linarith
      have h5 : 2 * ((k : ℚ) + 1) / 2 ^ 53 = 2 * (k : ℚ) / 2 ^ 53 + 1 / 2 ^ 53 + 1 / 2 ^ 53 := by
        ring
      linarith
    linarith

theorem list_abs_sum_le (l : List ℚ) : |l.sum| ≤ (l.map (fun x => |x|)).sum := by
  induction l with
  | nil => simp
  | cons a t ih =>
    simp only [List.sum_cons, List.map_cons]
    have := abs_add a t.sum
    linarith

theorem fsum_step (t S A g x r : ℚ) (hg0 : 0 ≤ g) (hSA : |S| ≤ A) (ih : |t - S| ≤ g * A)
    (he : |r - (t + x)| ≤ |t + x| / 2 ^ 53) :
    |r - (S + x)| ≤ (g + g / 2 ^ 53 + 1 / 2 ^ 53) * (A + |x|) := by
  have htx : |t + x| ≤ g * A + A + |x| := by
    have h1 : t + x = (t - S) + S + x := by ring
    rw [h1]
    have h2 := abs_add ((t - S) + S) x
    have h3 := abs_add (t - S) S
    linarith
  have hdiv : |t + x| / 2 ^ 53 ≤ (g * A + A + |x|) / 2 ^ 53 :=
    div_le_div_of_nonneg_right htx (by norm_num)
  have hsplit : r - (S + x) = (r - (t + x)) + (t - S) := by ring
  rw [hsplit]
  have h4 := abs_add (r - (t + x)) (t - S)
  have hx0 : 0 ≤ |x| := abs_nonneg x
  have hexp : (g + g / 2 ^ 53 + 1 / 2 ^ 53) * (A + |x|)
      = (g * A + A + |x|) / 2 ^ 53 + g * A + (g + g / 2 ^ 53) * |x| := by ring
  rw [hexp]
  have hlast : 0 ≤ (g + g / 2 ^ 53) * |x| := by positivity
  linarith

theorem fsum_error (xs : List ℚ) :
    |xs.foldl fadd 0 - xs.sum|
      ≤ ((1 + 1 / 2 ^ 53) ^ xs.length - 1) * (xs.map (fun x => |x|)).sum := by
  induction xs using List.reverseRecOn with
  | nil => simp
  | append_singleton l x ih =>
    simp only [List.foldl_append, List.foldl_cons, List.foldl_nil, List.sum_append,
      List.sum_cons, List.sum_nil, List.map_append, List.map_cons, List.map_nil,
      List.length_append, List.length_cons, List.length_nil, add_zero, zero_add]
    have hgoal : (1 + 1 / 2 ^ 53 : ℚ) ^ (l.length + 1) - 1
        = ((1 + 1 / 2 ^ 53 : ℚ) ^ l.length - 1)
          + ((1 + 1 / 2 ^ 53 : ℚ) ^ l.length - 1) / 2 ^ 53 + 1 / 2 ^ 53 := by
      rw [pow_succ]; ring
    rw [hgoal]
    exact fsum_step _ _ _ _ x _ (pow_sub_one_nonneg l.length) (list_abs_sum_le l) ih
      (roundDouble_error _)

theorem two_step_error (y : ℚ) :
    |roundDouble (roundDouble y * 100) - y * 100| ≤ 3 * |y * 100| / 2 ^ 53 := by
  have h1 := roundDouble_error y
  have h2 := roundDouble_error (roundDouble y * 100)
  have h3 := abs_roundDouble_le y
  have hz : |roundDouble y * 100| = |roundDouble y| * 100 := by
    rw [abs_mul]; norm_num
  have hy : |y * 100| = |y| * 100 := by
    rw [abs_mul]; norm_num
  have hsplit : roundDouble (roundDouble y * 100) - y * 100
      = (roundDouble (roundDouble y * 100) - roundDouble y * 100)
        + (roundDouble y - y) * 100 := by ring
  have h4 := abs_add (roundDouble (roundDouble y * 100) - roundDouble y * 100)
    ((roundDouble y - y) * 100)
  have h5 : |(roundDouble y - y) * 100| = |roundDouble y - y| * 100 := by
    rw [abs_mul]; norm_num
  have hy0 : 0 ≤ |y| := abs_nonneg y
  rw [hsplit, hy]
  rw [hz] at h2
  rw [h5] at h4
  have h6 : |roundDouble y| * 100 / 2 ^ 53 ≤ (1 + 1 / 2 ^ 53) * |y| * 100 / 2 ^ 53 := by
    apply div_le_div_of_nonneg_right _ (by norm_num)
    exact mul_le_mul_of_nonneg_right h3 (by norm_num)
  have h7 : (1 + 1 / 2 ^ 53) * |y| * 100 / 2 ^ 53 + |y| / 2 ^ 53 * 100
      ≤ 3 * (|y| * 100) / 2 ^ 53 := by
    have : (3 : ℚ) * (|y| * 100) / 2 ^ 53
        - ((1 + 1 / 2 ^ 53) * |y| * 100 / 2 ^ 53 + |y| / 2 ^ 53 * 100)
        = |y| * (100 / 2 ^ 53 * (1 - 1 / 2 ^ 53)) := by ring
    have hpos : (0 : ℚ) ≤ 100 / 2 ^ 53 * (1 - 1 / 2 ^ 53) := by norm_num
    have := mul_nonneg hy0 hpos
    linarith
  linarith

theorem double_holdingRow_of_quote (marketData : MarketData) (h : Holding) (q : Quote)
    (hq : marketData h.symbol = some q) (hcost : h.buyPrice * h.quantity ≠ 0) :
    Double.holdingRow marketData h
      = some ⟨fmul q.price h.quantity, fmul h.buyPrice h.quantity,
          fsub (fmul q.price h.quantity) (fmul h.buyPrice h.quantity),
          JSNum.fin (roundFixed 2
            (fmul (roundDouble
              (fsub (fmul q.price h.quantity) (fmul h.buyPrice h.quantity)
                / fmul h.buyPrice h.quantity)) 100))⟩ := by
  have hne : fmul h.buyPrice h.quantity ≠ 0 := by
    unfold fmul
    rw [Ne, roundDouble_eq_zero_iff]
    exact hcost
  unfold Double.holdingRow
  rw [hq]
  simp only [Double.rowRatio, fdiv, if_pos hne]
  rfl

theorem fmul_btc_value : fmul 43250 (1 / 2) = 21625 := by
  have h := roundDouble_intCast 21625 (by norm_num)
  unfold fmul
  norm_num at h ⊢
  exact h

theorem fmul_btc_cost : fmul 40000 (1 / 2) = 20000 := by
  have h := roundDouble_intCast 20000 (by norm_num)
  unfold fmul
  norm_num at h ⊢
  exact h

theorem fsub_btc_gain : fsub 21625 20000 = 1625 := by
  have h := roundDouble_intCast 1625 (by norm_num)
  unfold fsub
  norm_num at h ⊢
  exact h

theorem roundDouble_btc_quotient :
    roundDouble (1625 / 20000) = 5854679515581645 / 72057594037927936 := by
  rw [roundDouble_eq (1625 / 20000) (-4) 5854679515581645
    (by norm_num [abs_of_pos]) (by norm_num [abs_of_pos]) (by rw [abs_lt]; norm_num)]
  norm_num

theorem fmul_btc_ratio : fmul (5854679515581645 / 72057594037927936) 100 = 65 / 8 := by
  unfold fmul
  rw [roundDouble_eq (5854679515581645 / 72057594037927936 * 100) 3 4573968371548160
    (by norm_num [abs_of_pos]) (by norm_num [abs_of_pos]) (by rw [abs_lt]; norm_num)]
  norm_num

theorem roundFixed_two_of_eight_and_eighth : roundFixed 2 (65 / 8) = 813 / 100 := by
  have h : ⌊(65 / 8 : ℚ) * 10 ^ 2 + 1 / 2⌋ = 813 := by
    rw [Int.floor_eq_iff]
    norm_num
  unfold roundFixed
  rw [if_neg (by norm_num), h]
  norm_num

theorem fmul_aapl_value : fmul (771 / 4) 1 = 771 / 4 := by
  have e := roundDouble_exact 771 (-2) (by norm_num)
  have a : (771 / 4 : ℚ) * 1 = (771 : ℤ) * (2 : ℚ) ^ (-2 : ℤ) := by norm_num
  unfold fmul
  rw [a, e]
  norm_num

theorem fmul_aapl_cost : fmul 200 1 = 200 := by
  have h := roundDouble_intCast 200 (by norm_num)
  unfold fmul
  norm_num at h ⊢
  exact h

theorem fsub_aapl_gain : fsub (771 / 4) 200 = -(29 / 4) := by
  have e := roundDouble_exact (-29) (-2) (by norm_num)
  have a : (771 / 4 : ℚ) - 200 = ((-29 : ℤ) : ℚ) * (2 : ℚ) ^ (-2 : ℤ) := by norm_num
  unfold fsub
  rw [a, e]
  norm_num

theorem roundDouble_aapl_quotient :
    roundDouble (-(29 / 4) / 200) = -(5224175567749775 / 144115188075855872) := by
  rw [roundDouble_eq (-(29 / 4) / 200) (-5) (-5224175567749775)
    (by norm_num [abs_of_neg]) (by norm_num [abs_of_neg]) (by rw [abs_lt]; norm_num)]
  norm_num

theorem fmul_aapl_ratio :
    fmul (-(5224175567749775 / 144115188075855872)) 100
      = -(8162774324609023 / 2251799813685248) := by
  unfold fmul
  rw [roundDouble_eq (-(5224175567749775 / 144115188075855872) * 100) 1 (-8162774324609023)
    (by norm_num [abs_of_neg]) (by norm_num [abs_of_neg]) (by rw [abs_lt]; norm_num)]
  norm_num

theorem roundFixed_two_aapl_ratio :
    roundFixed 2 (-(8162774324609023 / 2251799813685248)) = -(181 / 50) := by
  have h : ⌊(-(-(8162774324609023 / 2251799813685248)) : ℚ) * 10 ^ 2 + 1 / 2⌋ = 362 := by
    rw [Int.floor_eq_iff]
    norm_num
  unfold roundFixed
  rw [if_pos (by norm_num), h]
  norm_num

/-- C17: for every holding with a present quote and a non-zero cost basis, the
holdings row computes, in the doubles of the program, currentValue =
quote.price × quantity, gainLoss = currentValue − buyPrice × quantity and the
percentage gainLoss / (buyPrice × quantity) × 100, which is a finite number and
is then shown with two decimals; each step is within one rounding of the exact
result of its operands. For the holding BTC, quantity 0.5, cost 40000, with
quote price 43250, these are exactly 21625, 1625 and 8.125 (shown as 8.13). -/
theorem double_holdingRow_spec :
    (∀ (marketData : MarketData) (h : Holding) (q : Quote),
      marketData h.symbol = some q → h.buyPrice * h.quantity ≠ 0 →
      ∃ (row : HoldingRow) (ratio : ℚ),
        Double.holdingRow marketData h = some row
          ∧ row.currentValue = fmul q.price h.quantity
          ∧ row.originalValue = fmul h.buyPrice h.quantity
          ∧ row.gainLoss = fsub row.currentValue row.originalValue
          ∧ Double.rowRatio row.gainLoss row.originalValue = JSNum.fin ratio
          ∧ ratio = fmul (roundDouble (row.gainLoss / row.originalValue)) 100
          ∧ row.gainLossPercent = JSNum.fin (roundFixed 2 ratio)
          ∧ |row.currentValue - q.price * h.quantity| ≤ |q.price * h.quantity| / 2 ^ 53
          ∧ |row.originalValue - h.buyPrice * h.quantity| ≤ |h.buyPrice * h.quantity| / 2 ^ 53
          ∧ |row.gainLoss - (row.currentValue - row.originalValue)|
              ≤ |row.currentValue - row.originalValue| / 2 ^ 53
          ∧ |ratio - row.gainLoss / row.originalValue * 100|
              ≤ 3 * |row.gainLoss / row.originalValue * 100| / 2 ^ 53)
      ∧ Double.holdingRow btcMarket ⟨1, "BTC", "crypto", 1 / 2, 40000⟩
          = some ⟨21625, 20000, 1625, JSNum.fin (813 / 100)⟩
      ∧ Double.rowRatio 1625 20000 = JSNum.fin (65 / 8) := by
  refine ⟨?_, ?_, ?_⟩
  · intro marketData h q hq hcost
    have hne : fmul h.buyPrice h.quantity ≠ 0 := by
      unfold fmul
      rw [Ne, roundDouble_eq_zero_iff]
      exact hcost
    refine ⟨_, _, double_holdingRow_of_quote marketData h q hq hcost, rfl, rfl, rfl, ?_, rfl,
      rfl, roundDouble_error _, roundDouble_error _, roundDouble_error _, two_step_error _⟩
    simp only [Double.rowRatio, fdiv, if_pos hne]
    rfl
  · rw [double_holdingRow_of_quote btcMarket ⟨1, "BTC", "crypto", 1 / 2, 40000⟩
      ⟨43250, 5 / 2, some 850000000000, "crypto", "Bitcoin"⟩
      (by simp [btcMarket, MarketData.set]) (by norm_num)]
    simp only [fmul_btc_value, fmul_btc_cost, fsub_btc_gain, roundDouble_btc_quotient,
      fmul_btc_ratio, roundFixed_two_of_eight_and_eighth]
  · have hne : (20000 : ℚ) ≠ 0 := by norm_num
    simp only [Double.rowRatio, fdiv, if_pos hne, JSNum.fmul]
    rw [roundDouble_btc_quotient]
    exact congrArg JSNum.fin fmul_btc_ratio

/-- C17 at a holding whose percentage is rounded: AAPL, quantity 1, cost 200,
with quote price 192.75 gives currentValue 192.75, gainLoss −7.25 and the
percentage −3.6249999999999996 (−8162774324609023 / 2^51), shown as −3.62. -/
theorem double_holdingRow_spec_witness :
    ∃ (row : HoldingRow) (ratio : ℚ),
      Double.holdingRow aaplMarket ⟨1, "AAPL", "stock", 1, 200⟩ = some row
        ∧ row.currentValue = 771 / 4
        ∧ row.gainLoss = -(29 / 4)
        ∧ Double.rowRatio row.gainLoss row.originalValue = JSNum.fin ratio
        ∧ ratio = -(8162774324609023 / 2251799813685248)
        ∧ row.gainLossPercent = JSNum.fin (-(181 / 50)) := by
  obtain ⟨row, ratio, h1, h2, h3, h4, h5, h6, h7, _⟩ := double_holdingRow_spec.1
    aaplMarket ⟨1, "AAPL", "stock", 1, 200⟩ ⟨771 / 4, 9 / 5, none, "stock", "Apple Inc."⟩
    (by simp [aaplMarket, MarketData.set]) (by norm_num)
  have hv : row.currentValue = 771 / 4 := by rw [h2]; exact fmul_aapl_value
  have ho : row.originalValue = 200 := by rw [h3]; exact fmul_aapl_cost
  have hg : row.gainLoss = -(29 / 4) := by rw [h4, hv, ho]; exact fsub_aapl_gain
  have hr : ratio = -(8162774324609023 / 2251799813685248) := by
    rw [h6, hg, ho, roundDouble_aapl_quotient]
    exact fmul_aapl_ratio
  refine ⟨row, ratio, h1, hv, hg, h5, hr, ?_⟩
  rw [h7, hr, roundFixed_two_aapl_ratio]

/-! ### Shares of the distribution in doubles -/

theorem double_value_eq_fold (portfolio : List Holding) (marketData : MarketData) :
    Double.calculatePortfolioValue portfolio marketData
      = (portfolio.map (Double.holdingValue marketData)).foldl fadd 0 := by
  unfold Double.calculatePortfolioValue
  rw [List.foldl_map]
  rfl

theorem double_holdingValue_nonneg (marketData : MarketData) (h : Holding)
    (hq : 0 ≤ h.quantity) (hp : ∀ symbol q, marketData symbol = some q → 0 ≤ q.price) :
    0 ≤ Double.holdingValue marketData h := by
  unfold Double.holdingValue fmul
  apply roundDouble_nonneg
  rw [orZero_priceField]
  exact currentValue_nonneg marketData h hq hp

theorem sum_abs_of_nonneg (l : List ℚ) (h : ∀ x ∈ l, 0 ≤ x) :
    (l.map (fun x => |x|)).sum = l.sum := by
  induction l with
  | nil => simp
  | cons a t ih =>
    simp only [List.map_cons, List.sum_cons]
    rw [ih (fun x hx => h x (List.mem_cons_of_mem a hx)),
      abs_of_nonneg (h a (List.mem_cons_self a t))]

theorem sum_abs_sub_le {α : Type} (l : List α) (f g : α → ℚ) (c : ℚ)
    (h : ∀ a ∈ l, |f a - g a| ≤ c * g a) :
    |(l.map f).sum - (l.map g).sum| ≤ c * (l.map g).sum := by
  induction l with
  | nil => simp
  | cons a t ih =>
    simp only [List.map_cons, List.sum_cons]
    have h1 := h a (List.mem_cons_self a t)
    have h2 := ih (fun x hx => h x (List.mem_cons_of_mem a hx))
    have h3 : f a + (t.map f).sum - (g a + (t.map g).sum)
        = (f a - g a) + ((t.map f).sum - (t.map g).sum) := by ring
    rw [h3]
    have h4 := abs_add (f a - g a) ((t.map f).sum - (t.map g).sum)
    have h5 : c * (g a + (t.map g).sum) = c * g a + c * (t.map g).sum := by ring
    linarith

theorem share_sum_core (S T g r sigma : ℚ) (n : ℕ) (hn : n ≤ 2 ^ 40) (hS : 0 ≤ S)
    (hT : 0 < T) (hg : g ≤ 2 * n / 2 ^ 53) (hTS : |T - S| ≤ g * S)
    (hr : r = S / T) (hsig : |sigma - r * 100| ≤ 3 / 2 ^ 53 * (r * 100)) :
    |sigma - 100| ≤ ((n : ℚ) + 2) / 2 ^ 44 := by
  have hnq : (n : ℚ) ≤ 1099511627776 := by
    have : n ≤ 1099511627776 := by omega
    exact_mod_cast this
  have hn0 : (0 : ℚ) ≤ n := Nat.cast_nonneg n
  have hghalf : g ≤ 1 / 2 := by
    have : 2 * (n : ℚ) / 2 ^ 53 ≤ 1 / 2 := by
      rw [div_le_iff₀ (by norm_num)]
      norm_num
      linarith
    linarith
  have hr0 : 0 ≤ r := by rw [hr]; exact div_nonneg hS hT.le
  have hrS : r * T = S := by rw [hr]; field_simp
  have hr1 : |r - 1| ≤ g * r := by
    have h1 : r - 1 = (S - T) / T := by rw [hr]; field_simp
    rw [h1, abs_div, abs_of_pos hT, div_le_iff₀ hT, abs_sub_comm]
    have : g * r * T = g * S := by rw [mul_assoc, hrS]
    linarith
  rw [abs_le] at hr1 hsig
  have hgr : g * r ≤ 1 / 2 * r := mul_le_mul_of_nonneg_right hghalf hr0
  have hr2 : r ≤ 2 := by linarith [hr1.2]
  have hgr2 : g * r ≤ 2 * n / 2 ^ 53 * 2 := by
    calc g * r ≤ 2 * n / 2 ^ 53 * r := mul_le_mul_of_nonneg_right hg hr0
      _ ≤ 2 * n / 2 ^ 53 * 2 := mul_le_mul_of_nonneg_left hr2 (by positivity)
  have hfinal : (2 * (n : ℚ) / 2 ^ 53 * 2) * 100 + 3 / 2 ^ 53 * (2 * 100)
      ≤ ((n : ℚ) + 2) / 2 ^ 44 := by
    have hd : ((n : ℚ) + 2) / 2 ^ 44
        - ((2 * (n : ℚ) / 2 ^ 53 * 2) * 100 + 3 / 2 ^ 53 * (2 * 100))
        = (112 * (n : ℚ) + 424) / 2 ^ 53 := by ring
    have hpos : (0 : ℚ) ≤ (112 * (n : ℚ) + 424) / 2 ^ 53 := by positivity
    linarith
  rw [abs_le]
  constructor <;> linarith [hr1.1, hr1.2, hsig.1, hsig.2]

theorem double_shares_bound (portfolio : List Holding) (marketData : MarketData)
    (hq : ∀ h ∈ portfolio, 0 ≤ h.quantity)
    (hp : ∀ symbol q, marketData symbol = some q → 0 ≤ q.price)
    (hpos : 0 < Double.calculatePortfolioValue portfolio marketData)
    (hlen : portfolio.length ≤ 2 ^ 40) :
    |(portfolio.map (Double.share portfolio marketData)).sum - 100|
      ≤ ((portfolio.length : ℚ) + 2) / 2 ^ 44 := by
  have hv0 : ∀ x ∈ portfolio.map (Double.holdingValue marketData), 0 ≤ x := by
    intro x hx
    rw [List.mem_map] at hx
    obtain ⟨h, hh, rfl⟩ := hx
    exact double_holdingValue_nonneg marketData h (hq h hh) hp
  have hS0 : 0 ≤ (portfolio.map (Double.holdingValue marketData)).sum :=
    List.sum_nonneg hv0
  have hTS := fsum_error (portfolio.map (Double.holdingValue marketData))
  rw [sum_abs_of_nonneg _ hv0, ← double_value_eq_fold, List.length_map] at hTS
  have hg := pow_sub_one_le portfolio.length (by omega)
  have hsig : |(portfolio.map (Double.share portfolio marketData)).sum
      - (portfolio.map (fun h : Holding => Double.holdingValue marketData h
          / Double.calculatePortfolioValue portfolio marketData * 100)).sum|
      ≤ 3 / 2 ^ 53 * (portfolio.map (fun h : Holding => Double.holdingValue marketData h
          / Double.calculatePortfolioValue portfolio marketData * 100)).sum := by
    apply sum_abs_sub_le
    intro h hh
    have h0 : 0 ≤ Double.holdingValue marketData h
        / Double.calculatePortfolioValue portfolio marketData * 100 :=
      mul_nonneg (div_nonneg (double_holdingValue_nonneg marketData h (hq h hh) hp) hpos.le)
        (by norm_num)
    have := two_step_error (Double.holdingValue marketData h
      / Double.calculatePortfolioValue portfolio marketData)
    rw [abs_of_nonneg h0] at this
    unfold Double.share
    calc _ ≤ 3 * (Double.holdingValue marketData h
          / Double.calculatePortfolioValue portfolio marketData * 100) / 2 ^ 53 := this
      _ = _ := by ring
  rw [sum_map_div_mul (Double.holdingValue marketData)] at hsig
  exact share_sum_core _ _ _ _ _ portfolio.length hlen hS0 hpos hg hTS rfl hsig

theorem roundDouble_ofNat (n : ℕ) [n.AtLeastTwo] (h : n < 2 ^ 53) :
    roundDouble (OfNat.ofNat n : ℚ) = OfNat.ofNat n := by
  have h1 : |(n : ℤ)| < 2 ^ 53 := by
    rw [abs_of_nonneg (by positivity)]
    exact_mod_cast h
  have h2 := roundDouble_intCast (n : ℤ) h1
  simpa using h2

theorem roundDouble_one : roundDouble 1 = 1 := by
  have h := roundDouble_intCast 1 (by norm_num)
  simpa using h

theorem double_share_fin (portfolio : List Holding) (marketData : MarketData) (h : Holding)
    (hpos : 0 < Double.calculatePortfolioValue portfolio marketData) :
    Double.sharePercent (Double.holdingValue marketData h)
        (Double.calculatePortfolioValue portfolio marketData)
      = JSNum.fin (Double.share portfolio marketData h) := by
  unfold Double.sharePercent fdiv
  rw [if_pos (ne_of_gt hpos)]
  rfl

theorem double_distribution_percentages (portfolio : List Holding) (marketData : MarketData) :
    (Double.portfolioDistribution portfolio marketData).map DistributionEntry.percentage
      = portfolio.map (fun h : Holding =>
          if Double.calculatePortfolioValue portfolio marketData > 0 then
            (Double.sharePercent (Double.holdingValue marketData h)
              (Double.calculatePortfolioValue portfolio marketData)).toFixed 1
          else JSNum.fin 0) := by
  unfold Double.portfolioDistribution
  simp only [List.map_map]
  rfl

theorem roundDouble_43250 : roundDouble (43250 : ℚ) = 43250 :=
  roundDouble_ofNat 43250 (by norm_num)

theorem roundDouble_86500 : roundDouble (86500 : ℚ) = 86500 :=
  roundDouble_ofNat 86500 (by norm_num)

theorem roundDouble_129750 : roundDouble (129750 : ℚ) = 129750 :=
  roundDouble_ofNat 129750 (by norm_num)

theorem double_holdingValue_btc (id : ℕ) (buyPrice : ℚ) :
    Double.holdingValue btcMarket ⟨id, "BTC", "crypto", 1, buyPrice⟩ = 43250 := by
  simp [Double.holdingValue, btcMarket, priceField, MarketData.set, orZero, fmul,
    roundDouble_43250]

theorem foldl_fadd_three (a b c : ℚ) :
    [a, b, c].foldl fadd 0 = roundDouble (roundDouble (roundDouble (0 + a) + b) + c) := rfl

theorem double_value_three_btc : Double.calculatePortfolioValue threeBtc btcMarket = 129750 := by
  have a0 : (0 : ℚ) + 43250 = 43250 := by norm_num
  have a1 : (43250 : ℚ) + 43250 = 86500 := by norm_num
  have a2 : (86500 : ℚ) + 43250 = 129750 := by norm_num
  rw [double_value_eq_fold]
  simp only [threeBtc, List.map_cons, List.map_nil, double_holdingValue_btc]
  rw [foldl_fadd_three, a0, roundDouble_43250, a1, roundDouble_86500, a2, roundDouble_129750]

theorem roundDouble_third :
    roundDouble (43250 / 129750) = 6004799503160661 / 18014398509481984 := by
  rw [roundDouble_eq (43250 / 129750) (-2) 6004799503160661
    (by norm_num [abs_of_pos]) (by norm_num [abs_of_pos]) (by rw [abs_lt]; norm_num)]
  norm_num

theorem roundDouble_third_percent :
    roundDouble (6004799503160661 / 18014398509481984 * 100)
      = 2345624805922133 / 70368744177664 := by
  rw [roundDouble_eq (6004799503160661 / 18014398509481984 * 100) 5 4691249611844266
    (by norm_num [abs_of_pos]) (by norm_num [abs_of_pos]) (by rw [abs_lt]; norm_num)]
  norm_num

theorem double_share_three_btc (id : ℕ) (buyPrice : ℚ) :
    Double.share threeBtc btcMarket ⟨id, "BTC", "crypto", 1, buyPrice⟩
      = 2345624805922133 / 70368744177664 := by
  unfold Double.share
  rw [double_value_three_btc, double_holdingValue_btc, roundDouble_third,
    roundDouble_third_percent]

theorem double_value_three_btc_pos : 0 < Double.calculatePortfolioValue threeBtc btcMarket := by
  rw [double_value_three_btc]
  norm_num

theorem three_shares_fadd :
    [(2345624805922133 / 70368744177664 : ℚ), 2345624805922133 / 70368744177664,
        2345624805922133 / 70368744177664].foldl fadd 0
      = 7036874417766399 / 70368744177664 := by
  have e1 := roundDouble_exact 2345624805922133 (-46) (by norm_num)
  have e2 := roundDouble_exact 2345624805922133 (-45) (by norm_num)
  have e3 := roundDouble_exact 7036874417766399 (-46) (by norm_num)
  have a0 : (0 : ℚ) + 2345624805922133 / 70368744177664
      = (2345624805922133 : ℤ) * (2 : ℚ) ^ (-46 : ℤ) := by norm_num
  have a1 : ((2345624805922133 : ℤ) : ℚ) * (2 : ℚ) ^ (-46 : ℤ)
      + 2345624805922133 / 70368744177664
      = (2345624805922133 : ℤ) * (2 : ℚ) ^ (-45 : ℤ) := by norm_num
  have a2 : ((2345624805922133 : ℤ) : ℚ) * (2 : ℚ) ^ (-45 : ℤ)
      + 2345624805922133 / 70368744177664
      = (7036874417766399 : ℤ) * (2 : ℚ) ^ (-46 : ℤ) := by norm_num
  rw [foldl_fadd_three, a0, e1, a1, e2, a2, e3]
  norm_num

/-- C12, amended: when quantities and prices are not negative and the total
value is positive, every share that portfolioDistribution computes before
formatting is a finite double, each percentage is its share formatted by
toFixed(1), and the shares sum to 100 up to the rounding of double arithmetic:
the sum is within (n + 2) / 2^44 of 100 for n holdings. -/
theorem double_shares_sum (portfolio : List Holding) (marketData : MarketData)
    (hq : ∀ h ∈ portfolio, 0 ≤ h.quantity)
    (hp : ∀ symbol q, marketData symbol = some q → 0 ≤ q.price)
    (hpos : 0 < Double.calculatePortfolioValue portfolio marketData)
    (hlen : portfolio.length < 2 ^ 32) :
    (Double.portfolioDistribution portfolio marketData).map DistributionEntry.percentage
        = portfolio.map (fun h : Holding =>
            (Double.sharePercent
              (fmul (orZero (priceField marketData h.symbol)) h.quantity)
              (Double.calculatePortfolioValue portfolio marketData)).toFixed 1)
      ∧ portfolio.map (fun h : Holding =>
            Double.sharePercent
              (fmul (orZero (priceField marketData h.symbol)) h.quantity)
              (Double.calculatePortfolioValue portfolio marketData))
        = (portfolio.map (Double.share portfolio marketData)).map JSNum.fin
      ∧ |(portfolio.map (Double.share portfolio marketData)).sum - 100|
          ≤ ((portfolio.length : ℚ) + 2) / 2 ^ 44 := by
  refine ⟨?_, ?_, ?_⟩
  · rw [double_distribution_percentages]
    simp only [gt_iff_lt, hpos, if_true]
    rfl
  · rw [List.map_map]
    apply List.map_congr_left
    intro h _
    exact double_share_fin portfolio marketData h hpos
  · exact double_shares_bound portfolio marketData hq hp hpos
      (le_of_lt (lt_of_lt_of_le hlen (by norm_num)))

theorem btc_holdings_nonneg (l : List Holding) (hl : ∀ h ∈ l, h.quantity = 1) :
    ∀ h ∈ l, 0 ≤ h.quantity := by
  intro h hh
  rw [hl h hh]
  norm_num

theorem threeBtc_quantity : ∀ h ∈ threeBtc, h.quantity = 1 := by
  intro h hh
  simp only [threeBtc, List.mem_cons, List.mem_singleton, List.not_mem_nil, or_false] at hh
  rcases hh with rfl | rfl | rfl <;> rfl

theorem btcMarket_nonneg : ∀ symbol q, btcMarket symbol = some q → 0 ≤ q.price := by
  intro symbol q hq
  unfold btcMarket MarketData.set MarketData.empty at hq
  by_cases hs : symbol = "BTC"
  · rw [if_pos hs] at hq
    injection hq with hq
    rw [← hq]
    norm_num
  · rw [if_neg hs] at hq
    exact absurd hq (by simp)

/-- C12, amended, at three BTC holdings of quantity 1 with BTC quoted at
43250, where every share is rounded: the three shares sum to a number within
(3 + 2) / 2^44 of 100. -/
theorem double_shares_sum_witness :
    |(threeBtc.map (Double.share threeBtc btcMarket)).sum - 100|
      ≤ ((threeBtc.length : ℚ) + 2) / 2 ^ 44 :=
  (double_shares_sum threeBtc btcMarket (btc_holdings_nonneg threeBtc threeBtc_quantity)
    btcMarket_nonneg double_value_three_btc_pos (by norm_num [threeBtc])).2.2

/-! ### Percentages of the distribution in doubles -/

theorem rounded_tenths {α : Type} (f : α → ℚ) (l : List α) :
    ∃ K : ℤ, (l.map (fun a => roundFixed 1 (f a))).sum = (K : ℚ) / 10 := by
  induction l with
  | nil => exact ⟨0, by simp⟩
  | cons a t ih =>
    obtain ⟨K, hK⟩ := ih
    simp only [List.map_cons, List.sum_cons, hK]
    unfold roundFixed
    by_cases hx : f a < 0
    · rw [if_pos hx]
      refine ⟨-⌊-f a * 10 ^ 1 + 1 / 2⌋ + K, ?_⟩
      push_cast
      ring
    · rw [if_neg hx]
      refine ⟨⌊f a * 10 ^ 1 + 1 / 2⌋ + K, ?_⟩
      push_cast
      ring

theorem tenths_within (K : ℤ) (n : ℕ) (h : |(K : ℚ) / 10 - 100| < ((n : ℚ) + 1) / 20) :
    |(K : ℚ) / 10 - 100| ≤ (n : ℚ) / 20 := by
  rw [abs_lt] at h
  have h1 : ((-(n : ℤ) - 1 : ℤ) : ℚ) < ((2 * K - 2000 : ℤ) : ℚ) := by
    push_cast; linarith [h.1]
  have h2 : ((2 * K - 2000 : ℤ) : ℚ) < (((n : ℤ) + 1 : ℤ) : ℚ) := by
    push_cast; linarith [h.2]
  have h3 : -(n : ℤ) - 1 < 2 * K - 2000 := by exact_mod_cast h1
  have h4 : 2 * K - 2000 < (n : ℤ) + 1 := by exact_mod_cast h2
  have h5 : -(n : ℤ) ≤ 2 * K - 2000 := by omega
  have h6 : 2 * K - 2000 ≤ (n : ℤ) := by omega
  have h7 : ((-(n : ℤ) : ℤ) : ℚ) ≤ ((2 * K - 2000 : ℤ) : ℚ) := by exact_mod_cast h5
  have h8 : ((2 * K - 2000 : ℤ) : ℚ) ≤ (((n : ℤ) : ℤ) : ℚ) := by exact_mod_cast h6
  push_cast at h7 h8
  rw [abs_le]
  constructor <;> linarith

theorem double_percentages_bound (portfolio : List Holding) (marketData : MarketData)
    (hq : ∀ h ∈ portfolio, 0 ≤ h.quantity)
    (hp : ∀ symbol q, marketData symbol = some q → 0 ≤ q.price)
    (hpos : 0 < Double.calculatePortfolioValue portfolio marketData)
    (hlen : portfolio.length < 2 ^ 32) :
    |(portfolio.map (fun h : Holding =>
        roundFixed 1 (Double.share portfolio marketData h))).sum - 100|
      ≤ (portfolio.length : ℚ) / 20 := by
  have h1 := rounded_sum_error (Double.share portfolio marketData) portfolio
  have h2 := double_shares_bound portfolio marketData hq hp hpos
    (le_of_lt (lt_of_lt_of_le hlen (by norm_num)))
  obtain ⟨K, hK⟩ := rounded_tenths (Double.share portfolio marketData) portfolio
  have hnq : (portfolio.length : ℚ) < 4294967296 := by
    have : portfolio.length < 4294967296 := by omega
    exact_mod_cast this
  have h3 : ((portfolio.length : ℚ) + 2) / 2 ^ 44 < 1 / 20 := by
    rw [div_lt_div_iff₀ (by norm_num) (by norm_num)]
    norm_num
    linarith
  rw [hK] at h1 ⊢
  apply tenths_within
  rw [abs_le] at h1 h2
  rw [abs_lt]
  constructor <;> linarith [h1.1, h1.2, h2.1, h2.2]

theorem roundDouble_173000 : roundDouble (173000 : ℚ) = 173000 :=
  roundDouble_ofNat 173000 (by norm_num)

theorem roundDouble_216250 : roundDouble (216250 : ℚ) = 216250 :=
  roundDouble_ofNat 216250 (by norm_num)

theorem roundDouble_259500 : roundDouble (259500 : ℚ) = 259500 :=
  roundDouble_ofNat 259500 (by norm_num)

theorem foldl_fadd_six (a b c d e f : ℚ) :
    [a, b, c, d, e, f].foldl fadd 0
      = roundDouble (roundDouble (roundDouble (roundDouble (roundDouble
          (roundDouble (0 + a) + b) + c) + d) + e) + f) := rfl

theorem double_value_six_btc : Double.calculatePortfolioValue sixBtc btcMarket = 259500 := by
  have a0 : (0 : ℚ) + 43250 = 43250 := by norm_num
  have a1 : (43250 : ℚ) + 43250 = 86500 := by norm_num
  have a2 : (86500 : ℚ) + 43250 = 129750 := by norm_num
  have a3 : (129750 : ℚ) + 43250 = 173000 := by norm_num
  have a4 : (173000 : ℚ) + 43250 = 216250 := by norm_num
  have a5 : (216250 : ℚ) + 43250 = 259500 := by norm_num
  rw [double_value_eq_fold]
  simp only [sixBtc, List.map_cons, List.map_nil, double_holdingValue_btc]
  rw [foldl_fadd_six, a0, roundDouble_43250, a1, roundDouble_86500, a2, roundDouble_129750,
    a3, roundDouble_173000, a4, roundDouble_216250, a5, roundDouble_259500]

theorem double_value_six_btc_pos : 0 < Double.calculatePortfolioValue sixBtc btcMarket := by
  rw [double_value_six_btc]
  norm_num

theorem roundDouble_sixth :
    roundDouble (43250 / 259500) = 6004799503160661 / 36028797018963968 := by
  rw [roundDouble_eq (43250 / 259500) (-3) 6004799503160661
    (by norm_num [abs_of_pos]) (by norm_num [abs_of_pos]) (by rw [abs_lt]; norm_num)]
  norm_num

theorem roundDouble_sixth_percent :
    roundDouble (6004799503160661 / 36028797018963968 * 100)
      = 2345624805922133 / 140737488355328 := by
  rw [roundDouble_eq (6004799503160661 / 36028797018963968 * 100) 4 4691249611844266
    (by norm_num [abs_of_pos]) (by norm_num [abs_of_pos]) (by rw [abs_lt]; norm_num)]
  norm_num

theorem roundFixed_one_of_sixth : roundFixed 1 (2345624805922133 / 140737488355328) = 167 / 10 := by
  have h : ⌊(2345624805922133 / 140737488355328 : ℚ) * 10 ^ 1 + 1 / 2⌋ = 167 := by
    rw [Int.floor_eq_iff]
    norm_num
  unfold roundFixed
  rw [if_neg (by norm_num), h]
  norm_num

theorem double_share_six_btc (id : ℕ) (buyPrice : ℚ) :
    Double.share sixBtc btcMarket ⟨id, "BTC", "crypto", 1, buyPrice⟩
      = 2345624805922133 / 140737488355328 := by
  unfold Double.share
  rw [double_value_six_btc, double_holdingValue_btc, roundDouble_sixth,
    roundDouble_sixth_percent]

theorem double_percentages_of_pos (portfolio : List Holding) (marketData : MarketData)
    (hpos : 0 < Double.calculatePortfolioValue portfolio marketData) :
    (Double.portfolioDistribution portfolio marketData).map DistributionEntry.percentage
      = (portfolio.map (fun h : Holding =>
          roundFixed 1 (Double.share portfolio marketData h))).map JSNum.fin := by
  rw [double_distribution_percentages, List.map_map]
  apply List.map_congr_left
  intro h _
  simp only [gt_iff_lt, hpos, if_true, double_share_fin portfolio marketData h hpos]
  rfl

/-- C11, amended: when quantities and prices are not negative and the total
value is positive, each percentage of portfolioDistribution is the share
value / portfolioValue × 100, computed in doubles, rounded to one decimal, and
the percentages sum to a number within 0.05 × n of 100, where n is the number
of holdings. -/
theorem double_percentages_sum (portfolio : List Holding) (marketData : MarketData)
    (hq : ∀ h ∈ portfolio, 0 ≤ h.quantity)
    (hp : ∀ symbol q, marketData symbol = some q → 0 ≤ q.price)
    (hpos : 0 < Double.calculatePortfolioValue portfolio marketData)
    (hlen : portfolio.length < 2 ^ 32) :
    (Double.portfolioDistribution portfolio marketData).map DistributionEntry.percentage
        = (portfolio.map (fun h : Holding =>
            roundFixed 1
              (roundDouble
                (roundDouble
                  (fmul (orZero (priceField marketData h.symbol)) h.quantity
                    / Double.calculatePortfolioValue portfolio marketData) * 100)))).map
            JSNum.fin
      ∧ |(portfolio.map (fun h : Holding =>
            roundFixed 1
              (roundDouble
                (roundDouble
                  (fmul (orZero (priceField marketData h.symbol)) h.quantity
                    / Double.calculatePortfolioValue portfolio marketData) * 100)))).sum
          - 100|
          ≤ (portfolio.length : ℚ) / 20 :=
  ⟨double_percentages_of_pos portfolio marketData hpos,
    double_percentages_bound portfolio marketData hq hp hpos hlen⟩

theorem double_holdingValue_aapl_41 :
    Double.holdingValue aaplMarket ⟨1, "AAPL", "stock", 41, 180⟩ = 31611 / 4 := by
  have e := roundDouble_exact 31611 (-2) (by norm_num)
  have a : (771 / 4 : ℚ) * 41 = (31611 : ℤ) * (2 : ℚ) ^ (-2 : ℤ) := by norm_num
  simp only [Double.holdingValue, aaplMarket, priceField, MarketData.set, orZero, fmul]
  simp only [if_true, Option.map_some', ne_eq]
  rw [if_pos (by norm_num), a, e]
  norm_num

theorem double_holdingValue_aapl_39 :
    Double.holdingValue aaplMarket ⟨2, "AAPL", "stock", 39, 180⟩ = 30069 / 4 := by
  have e := roundDouble_exact 30069 (-2) (by norm_num)
  have a : (771 / 4 : ℚ) * 39 = (30069 : ℤ) * (2 : ℚ) ^ (-2 : ℤ) := by norm_num
  simp only [Double.holdingValue, aaplMarket, priceField, MarketData.set, orZero, fmul]
  simp only [if_true, Option.map_some', ne_eq]
  rw [if_pos (by norm_num), a, e]
  norm_num

theorem foldl_fadd_two (a b : ℚ) :
    [a, b].foldl fadd 0 = roundDouble (roundDouble (0 + a) + b) := rfl

theorem double_value_two_aapl : Double.calculatePortfolioValue twoAapl aaplMarket = 15420 := by
  have e1 := roundDouble_exact 31611 (-2) (by norm_num)
  have e2 := roundDouble_ofNat 15420 (by norm_num)
  have a0 : (0 : ℚ) + 31611 / 4 = (31611 : ℤ) * (2 : ℚ) ^ (-2 : ℤ) := by norm_num
  have a1 : ((31611 : ℤ) : ℚ) * (2 : ℚ) ^ (-2 : ℤ) + 30069 / 4 = 15420 := by norm_num
  rw [double_value_eq_fold]
  simp only [twoAapl, List.map_cons, List.map_nil, double_holdingValue_aapl_41,
    double_holdingValue_aapl_39]
  rw [foldl_fadd_two, a0, e1, a1, e2]

theorem double_value_two_aapl_pos : 0 < Double.calculatePortfolioValue twoAapl aaplMarket := by
  rw [double_value_two_aapl]
  norm_num

theorem roundDouble_aapl_41 :
    roundDouble (31611 / 4 / 15420) = 2308094809027379 / 4503599627370496 := by
  rw [roundDouble_eq (31611 / 4 / 15420) (-1) 4616189618054758
    (by norm_num [abs_of_pos]) (by norm_num [abs_of_pos]) (by rw [abs_lt]; norm_num)]
  norm_num

theorem roundDouble_aapl_41_percent :
    roundDouble (2308094809027379 / 4503599627370496 * 100)
      = 7212796278210559 / 140737488355328 := by
  rw [roundDouble_eq (2308094809027379 / 4503599627370496 * 100) 5 7212796278210559
    (by norm_num [abs_of_pos]) (by norm_num [abs_of_pos]) (by rw [abs_lt]; norm_num)]
  norm_num

theorem roundDouble_aapl_39 :
    roundDouble (30069 / 4 / 15420) = 8782019273372467 / 18014398509481984 := by
  rw [roundDouble_eq (30069 / 4 / 15420) (-2) 8782019273372467
    (by norm_num [abs_of_pos]) (by norm_num [abs_of_pos]) (by rw [abs_lt]; norm_num)]
  norm_num

theorem roundDouble_aapl_39_percent :
    roundDouble (8782019273372467 / 18014398509481984 * 100) = 195 / 4 := by
  rw [roundDouble_eq (8782019273372467 / 18014398509481984 * 100) 5 6860952557322240
    (by norm_num [abs_of_pos]) (by norm_num [abs_of_pos]) (by rw [abs_lt]; norm_num)]
  norm_num

theorem double_share_aapl_41 :
    Double.share twoAapl aaplMarket ⟨1, "AAPL", "stock", 41, 180⟩
      = 7212796278210559 / 140737488355328 := by
  unfold Double.share
  rw [double_value_two_aapl, double_holdingValue_aapl_41, roundDouble_aapl_41,
    roundDouble_aapl_41_percent]

theorem double_share_aapl_39 :
    Double.share twoAapl aaplMarket ⟨2, "AAPL", "stock", 39, 180⟩ = 195 / 4 := by
  unfold Double.share
  rw [double_value_two_aapl, double_holdingValue_aapl_39, roundDouble_aapl_39,
    roundDouble_aapl_39_percent]

theorem roundFixed_one_aapl_41 :
    roundFixed 1 (7212796278210559 / 140737488355328) = 256 / 5 := by
  have h : ⌊(7212796278210559 / 140737488355328 : ℚ) * 10 ^ 1 + 1 / 2⌋ = 512 := by
    rw [Int.floor_eq_iff]
    norm_num
  unfold roundFixed
  rw [if_neg (by norm_num), h]
  norm_num

theorem roundFixed_one_aapl_39 : roundFixed 1 (195 / 4) = 244 / 5 := by
  have h : ⌊(195 / 4 : ℚ) * 10 ^ 1 + 1 / 2⌋ = 488 := by
    rw [Int.floor_eq_iff]
    norm_num
  unfold roundFixed
  rw [if_neg (by norm_num), h]
  norm_num

theorem twoAapl_nonneg : ∀ h ∈ twoAapl, 0 ≤ h.quantity := by
  intro h hh
  simp only [twoAapl, List.mem_cons, List.mem_singleton, List.not_mem_nil, or_false] at hh
  rcases hh with rfl | rfl <;> norm_num

theorem aaplMarket_nonneg : ∀ symbol q, aaplMarket symbol = some q → 0 ≤ q.price := by
  intro symbol q hq
  unfold aaplMarket MarketData.set MarketData.empty at hq
  by_cases hs : symbol = "AAPL"
  · rw [if_pos hs] at hq
    injection hq with hq
    rw [← hq]
    norm_num
  · rw [if_neg hs] at hq
    exact absurd hq (by simp)

/-- C11, amended, at two AAPL holdings of 41 and 39 shares with AAPL quoted at
192.75, where both shares are rounded: the shares are the doubles
51.24999999999999 and 48.75, shown as 51.2 and 48.8, and the two percentages
sum to a number within 0.1 of 100. -/
theorem double_percentages_sum_witness :
    (Double.portfolioDistribution twoAapl aaplMarket).map DistributionEntry.percentage
        = [JSNum.fin (256 / 5), JSNum.fin (244 / 5)]
      ∧ |(twoAapl.map (fun h : Holding =>
            roundFixed 1
              (roundDouble
                (roundDouble
                  (fmul (orZero (priceField aaplMarket h.symbol)) h.quantity
                    / Double.calculatePortfolioValue twoAapl aaplMarket) * 100)))).sum
          - 100|
          ≤ (twoAapl.length : ℚ) / 20 := by
  have h := double_percentages_sum twoAapl aaplMarket twoAapl_nonneg aaplMarket_nonneg
    double_value_two_aapl_pos (by norm_num [twoAapl])
  refine ⟨?_, h.2⟩
  rw [double_percentages_of_pos twoAapl aaplMarket double_value_two_aapl_pos]
  simp only [twoAapl, List.map_cons, List.map_nil]
  rw [← twoAapl]
  simp only [double_share_aapl_41, double_share_aapl_39, roundFixed_one_aapl_41,
    roundFixed_one_aapl_39]

/-! ### Value, gain/loss and total cost in doubles -/

theorem double_gainLoss_eq_fold (portfolio : List Holding) (marketData : MarketData) :
    Double.calculateTotalGainLoss portfolio marketData
      = (portfolio.map (Double.holdingGain marketData)).foldl fadd 0 := by
  unfold Double.calculateTotalGainLoss
  rw [List.foldl_map]
  rfl

theorem sum_abs_sub_le_of {α : Type} (l : List α) (f g w : α → ℚ) (c : ℚ)
    (h : ∀ a ∈ l, |f a - g a| ≤ c * w a) :
    |(l.map f).sum - (l.map g).sum| ≤ c * (l.map w).sum := by
  induction l with
  | nil => simp
  | cons a t ih =>
    simp only [List.map_cons, List.sum_cons]
    have h1 := h a (List.mem_cons_self a t)
    have h2 := ih (fun x hx => h x (List.mem_cons_of_mem a hx))
    have h3 : f a + (t.map f).sum - (g a + (t.map g).sum)
        = (f a - g a) + ((t.map f).sum - (t.map g).sum) := by ring
    rw [h3]
    have h4 := abs_add (f a - g a) ((t.map f).sum - (t.map g).sum)
    have h5 : c * (w a + (t.map w).sum) = c * w a + c * (t.map w).sum := by ring
    linarith

theorem sum_abs_le_of {α : Type} (l : List α) (f w : α → ℚ) (c : ℚ)
    (h : ∀ a ∈ l, |f a| ≤ c * w a) :
    (l.map (fun a => |f a|)).sum ≤ c * (l.map w).sum := by
  induction l with
  | nil => simp
  | cons a t ih =>
    simp only [List.map_cons, List.sum_cons]
    have h1 := h a (List.mem_cons_self a t)
    have h2 := ih (fun x hx => h x (List.mem_cons_of_mem a hx))
    have h5 : c * (w a + (t.map w).sum) = c * w a + c * (t.map w).sum := by ring
    linarith

theorem sum_le_sum_add {α : Type} (l : List α) (f w : α → ℚ) (h : ∀ a ∈ l, f a ≤ w a) :
    (l.map f).sum ≤ (l.map w).sum := by
  induction l with
  | nil => simp
  | cons a t ih =>
    simp only [List.map_cons, List.sum_cons]
    have h1 := h a (List.mem_cons_self a t)
    have h2 := ih (fun x hx => h x (List.mem_cons_of_mem a hx))
    linarith

theorem gain_error (V C : ℚ) :
    |fsub (roundDouble V) (roundDouble C) - (V - C)|
        ≤ ((1 + 1 / 2 ^ 53) ^ 2 - 1) * (|V| + |C|)
      ∧ |fsub (roundDouble V) (roundDouble C)| ≤ (1 + 1 / 2 ^ 53) ^ 2 * (|V| + |C|) := by
  have hV := roundDouble_error V
  have hC := roundDouble_error C
  have hV2 := abs_roundDouble_le V
  have hC2 := abs_roundDouble_le C
  have hg := roundDouble_error (roundDouble V - roundDouble C)
  have hg2 := abs_roundDouble_le (roundDouble V - roundDouble C)
  have hvc : |roundDouble V - roundDouble C| ≤ (1 + 1 / 2 ^ 53) * (|V| + |C|) := by
    have := abs_sub (roundDouble V) (roundDouble C)
    linarith
  have hV0 := abs_nonneg V
  have hC0 := abs_nonneg C
  unfold fsub
  constructor
  · have hsplit : roundDouble (roundDouble V - roundDouble C) - (V - C)
        = (roundDouble (roundDouble V - roundDouble C) - (roundDouble V - roundDouble C))
          + (roundDouble V - V) - (roundDouble C - C) := by ring
    rw [hsplit]
    have h1 := abs_sub
      ((roundDouble (roundDouble V - roundDouble C) - (roundDouble V - roundDouble C))
        + (roundDouble V - V)) (roundDouble C - C)
    have h2 := abs_add
      (roundDouble (roundDouble V - roundDouble C) - (roundDouble V - roundDouble C))
      (roundDouble V - V)
    have h3 : |roundDouble V - roundDouble C| / 2 ^ 53
        ≤ (1 + 1 / 2 ^ 53) * (|V| + |C|) / 2 ^ 53 :=
      div_le_div_of_nonneg_right hvc (by norm_num)
    have h4 : ((1 + 1 / 2 ^ 53 : ℚ) ^ 2 - 1) * (|V| + |C|)
        = (1 + 1 / 2 ^ 53) * (|V| + |C|) / 2 ^ 53 + |V| / 2 ^ 53 + |C| / 2 ^ 53 := by ring
    linarith
  · have h5 : (1 + 1 / 2 ^ 53 : ℚ) * |roundDouble V - roundDouble C|
        ≤ (1 + 1 / 2 ^ 53) * ((1 + 1 / 2 ^ 53) * (|V| + |C|)) :=
      mul_le_mul_of_nonneg_left hvc (by norm_num)
    have h6 : (1 + 1 / 2 ^ 53 : ℚ) ^ 2 * (|V| + |C|)
        = (1 + 1 / 2 ^ 53) * ((1 + 1 / 2 ^ 53) * (|V| + |C|)) := by ring
    linarith

theorem denominator_core (P G D SV SC Sv Sg Av Ag AV A g u : ℚ) (hu : 0 ≤ u) (hg0 : 0 ≤ g)
    (hP : |P - Sv| ≤ g * Av) (hAv : Av ≤ (1 + u) * AV) (hSv : |Sv - SV| ≤ u * AV)
    (hG : |G - Sg| ≤ g * Ag) (hAg : Ag ≤ (1 + u) ^ 2 * A)
    (hSg : |Sg - (SV - SC)| ≤ ((1 + u) ^ 2 - 1) * A)
    (hAV0 : 0 ≤ AV) (hAV : AV ≤ A) (hSC : |SC| ≤ A)
    (hD : |D - (P - G)| ≤ u * |P - G|) :
    |D - SC| ≤ 2 * ((1 + u) ^ 3 * (g + 1) - 1) * A := by
  have hA0 : 0 ≤ A := le_trans hAV0 hAV
  have h1 : g * Av ≤ g * ((1 + u) * A) :=
    mul_le_mul_of_nonneg_left
      (le_trans hAv (mul_le_mul_of_nonneg_left hAV (by linarith))) hg0
  have h2 : g * Ag ≤ g * ((1 + u) ^ 2 * A) := mul_le_mul_of_nonneg_left hAg hg0
  have h3 : u * AV ≤ u * A := mul_le_mul_of_nonneg_left hAV hu
  have eP : |P - SV| ≤ g * ((1 + u) * A) + u * A := by
    have hs : P - SV = (P - Sv) + (Sv - SV) := by ring
    rw [hs]
    have := abs_add (P - Sv) (Sv - SV)
    linarith
  have eG : |G - (SV - SC)| ≤ g * ((1 + u) ^ 2 * A) + ((1 + u) ^ 2 - 1) * A := by
    have hs : G - (SV - SC) = (G - Sg) + (Sg - (SV - SC)) := by ring
    rw [hs]
    have := abs_add (G - Sg) (Sg - (SV - SC))
    linarith
  have ePG : |(P - G) - SC| ≤ g * ((1 + u) * A) + u * A
      + (g * ((1 + u) ^ 2 * A) + ((1 + u) ^ 2 - 1) * A) := by
    have hs : (P - G) - SC = (P - SV) - (G - (SV - SC)) := by ring
    rw [hs]
    have := abs_sub (P - SV) (G - (SV - SC))
    linarith
  have hPG : |P - G| ≤ A + (g * ((1 + u) * A) + u * A
      + (g * ((1 + u) ^ 2 * A) + ((1 + u) ^ 2 - 1) * A)) := by
    have hs : P - G = ((P - G) - SC) + SC := by ring
    rw [hs]
    have := abs_add ((P - G) - SC) SC
    linarith
  have huPG : u * |P - G| ≤ u * (A + (g * ((1 + u) * A) + u * A
      + (g * ((1 + u) ^ 2 * A) + ((1 + u) ^ 2 - 1) * A))) :=
    mul_le_mul_of_nonneg_left hPG hu
  have hDS : |D - SC| ≤ u * (A + (g * ((1 + u) * A) + u * A
      + (g * ((1 + u) ^ 2 * A) + ((1 + u) ^ 2 - 1) * A)))
      + (g * ((1 + u) * A) + u * A
      + (g * ((1 + u) ^ 2 * A) + ((1 + u) ^ 2 - 1) * A)) := by
    have hs : D - SC = (D - (P - G)) + ((P - G) - SC) := by ring
    rw [hs]
    have := abs_add (D - (P - G)) ((P - G) - SC)
    linarith
  have hdiff : 2 * ((1 + u) ^ 3 * (g + 1) - 1) * A
      - (u * (A + (g * ((1 + u) * A) + u * A
        + (g * ((1 + u) ^ 2 * A) + ((1 + u) ^ 2 - 1) * A)))
        + (g * ((1 + u) * A) + u * A
        + (g * ((1 + u) ^ 2 * A) + ((1 + u) ^ 2 - 1) * A)))
      = (g * (1 + u) ^ 2 * u + (2 * u + 2 * u ^ 2 + u ^ 3)) * A := by ring
  have hpos : 0 ≤ (g * (1 + u) ^ 2 * u + (2 * u + 2 * u ^ 2 + u ^ 3)) * A := by positivity
  linarith

theorem sum_map_sub {α : Type} (l : List α) (f g : α → ℚ) :
    (l.map (fun a => f a - g a)).sum = (l.map f).sum - (l.map g).sum := by
  induction l with
  | nil => simp
  | cons a t ih =>
    simp only [List.map_cons, List.sum_cons, ih]
    ring

theorem double_holdingValue_eq (marketData : MarketData) (h : Holding) :
    Double.holdingValue marketData h = roundDouble (currentValue marketData h) := by
  unfold Double.holdingValue fmul
  rw [orZero_priceField_mul]

theorem double_holdingGain_eq (marketData : MarketData) (h : Holding) :
    Double.holdingGain marketData h
      = fsub (roundDouble (currentValue marketData h))
          (roundDouble (h.buyPrice * h.quantity)) := by
  unfold Double.holdingGain
  rw [double_holdingValue_eq]
  rfl

theorem double_denominator_error (portfolio : List Holding) (marketData : MarketData) :
    |fsub (Double.calculatePortfolioValue portfolio marketData)
        (Double.calculateTotalGainLoss portfolio marketData)
      - (portfolio.map (fun h : Holding => h.buyPrice * h.quantity)).sum|
      ≤ 2 * ((1 + 1 / 2 ^ 53) ^ (portfolio.length + 3) - 1)
        * (portfolio.map (fun h : Holding =>
            |currentValue marketData h| + |h.buyPrice * h.quantity|)).sum := by
  have hP := fsum_error (portfolio.map (Double.holdingValue marketData))
  have hG := fsum_error (portfolio.map (Double.holdingGain marketData))
  rw [← double_value_eq_fold, List.length_map, List.map_map] at hP
  rw [← double_gainLoss_eq_fold, List.length_map, List.map_map] at hG
  have hAv : (portfolio.map ((fun x : ℚ => |x|) ∘ Double.holdingValue marketData)).sum
      ≤ (1 + 1 / 2 ^ 53)
        * (portfolio.map (fun h : Holding => |currentValue marketData h|)).sum := by
    apply sum_abs_le_of portfolio (Double.holdingValue marketData)
    intro h _
    rw [double_holdingValue_eq]
    exact abs_roundDouble_le _
  have hSv : |(portfolio.map (Double.holdingValue marketData)).sum
      - (portfolio.map (currentValue marketData)).sum|
      ≤ 1 / 2 ^ 53 * (portfolio.map (fun h : Holding => |currentValue marketData h|)).sum := by
    apply sum_abs_sub_le_of
    intro h _
    rw [double_holdingValue_eq]
    have := roundDouble_error (currentValue marketData h)
    calc _ ≤ |currentValue marketData h| / 2 ^ 53 := this
      _ = _ := by ring
  have hAg : (portfolio.map ((fun x : ℚ => |x|) ∘ Double.holdingGain marketData)).sum
      ≤ (1 + 1 / 2 ^ 53) ^ 2
        * (portfolio.map (fun h : Holding =>
            |currentValue marketData h| + |h.buyPrice * h.quantity|)).sum := by
    apply sum_abs_le_of portfolio (Double.holdingGain marketData)
    intro h _
    rw [double_holdingGain_eq]
    exact (gain_error _ _).2
  have hSg : |(portfolio.map (Double.holdingGain marketData)).sum
      - ((portfolio.map (currentValue marketData)).sum
        - (portfolio.map (fun h : Holding => h.buyPrice * h.quantity)).sum)|
      ≤ ((1 + 1 / 2 ^ 53) ^ 2 - 1)
        * (portfolio.map (fun h : Holding =>
            |currentValue marketData h| + |h.buyPrice * h.quantity|)).sum := by
    rw [← sum_map_sub]
    apply sum_abs_sub_le_of
    intro h _
    rw [double_holdingGain_eq]
    exact (gain_error _ _).1
  have hAV0 : 0 ≤ (portfolio.map (fun h : Holding => |currentValue marketData h|)).sum := by
    apply List.sum_nonneg
    intro x hx
    rw [List.mem_map] at hx
    obtain ⟨h, _, rfl⟩ := hx
    exact abs_nonneg _
  have hAV : (portfolio.map (fun h : Holding => |currentValue marketData h|)).sum
      ≤ (portfolio.map (fun h : Holding =>
          |currentValue marketData h| + |h.buyPrice * h.quantity|)).sum := by
    apply sum_le_sum_add
    intro h _
    have := abs_nonneg (h.buyPrice * h.quantity)
    linarith
  have hSC : |(portfolio.map (fun h : Holding => h.buyPrice * h.quantity)).sum|
      ≤ (portfolio.map (fun h : Holding =>
          |currentValue marketData h| + |h.buyPrice * h.quantity|)).sum := by
    have h1 := list_abs_sum_le (portfolio.map (fun h : Holding => h.buyPrice * h.quantity))
    rw [List.map_map] at h1
    have h2 : (portfolio.map ((fun x : ℚ => |x|)
        ∘ (fun h : Holding => h.buyPrice * h.quantity))).sum
        ≤ (portfolio.map (fun h : Holding =>
          |currentValue marketData h| + |h.buyPrice * h.quantity|)).sum := by
      apply sum_le_sum_add
      intro h _
      have := abs_nonneg (currentValue marketData h)
      simp only [Function.comp]
      linarith
    linarith
  have hD : |fsub (Double.calculatePortfolioValue portfolio marketData)
        (Double.calculateTotalGainLoss portfolio marketData)
      - (Double.calculatePortfolioValue portfolio marketData
        - Double.calculateTotalGainLoss portfolio marketData)|
      ≤ 1 / 2 ^ 53 * |Double.calculatePortfolioValue portfolio marketData
        - Double.calculateTotalGainLoss portfolio marketData| := by
    have := roundDouble_error (Double.calculatePortfolioValue portfolio marketData
      - Double.calculateTotalGainLoss portfolio marketData)
    unfold fsub
    calc _ ≤ |Double.calculatePortfolioValue portfolio marketData
          - Double.calculateTotalGainLoss portfolio marketData| / 2 ^ 53 := this
      _ = _ := by ring
  have hcore := denominator_core _ _ _ _ _ _ _ _ _ _ _ _ (1 / 2 ^ 53) (by norm_num)
    (pow_sub_one_nonneg portfolio.length) hP hAv hSv hG hAg hSg hAV0 hAV hSC hD
  have hpow : (1 + 1 / 2 ^ 53 : ℚ) ^ 3 * ((1 + 1 / 2 ^ 53) ^ portfolio.length - 1 + 1) - 1
      = (1 + 1 / 2 ^ 53) ^ (portfolio.length + 3) - 1 := by
    rw [pow_add]; ring
  rw [hpow] at hcore
  exact hcore

theorem foldl_fadd_one (a : ℚ) : [a].foldl fadd 0 = roundDouble (0 + a) := rfl

theorem double_value_single (h : Holding) (marketData : MarketData) :
    Double.calculatePortfolioValue [h] marketData
      = roundDouble (0 + Double.holdingValue marketData h) := by
  rw [double_value_eq_fold]
  simp only [List.map_cons, List.map_nil]
  rw [foldl_fadd_one]

theorem double_gainLoss_single (h : Holding) (marketData : MarketData) :
    Double.calculateTotalGainLoss [h] marketData
      = roundDouble (0 + Double.holdingGain marketData h) := by
  rw [double_gainLoss_eq_fold]
  simp only [List.map_cons, List.map_nil]
  rw [foldl_fadd_one]

theorem double_holdingValue_absent (h : Holding) :
    Double.holdingValue MarketData.empty h = 0 := by
  simp [Double.holdingValue, priceField, MarketData.empty, orZero, fmul, roundDouble_zero]

theorem roundDouble_tenth : roundDouble tenth = tenth := by
  have e := roundDouble_exact 3602879701896397 (-55) (by norm_num)
  have a : tenth = (3602879701896397 : ℤ) * (2 : ℚ) ^ (-55 : ℤ) := by
    unfold tenth; norm_num
  rw [a, e]

theorem roundDouble_neg_tenth : roundDouble (-tenth) = -tenth := by
  have e := roundDouble_exact (-3602879701896397) (-55) (by norm_num)
  have a : -tenth = ((-3602879701896397 : ℤ) : ℚ) * (2 : ℚ) ^ (-55 : ℤ) := by
    unfold tenth; norm_num
  rw [a, e]

theorem roundDouble_btc_minus_tenth :
    roundDouble (43250 - tenth) = 5944220993768653 / 137438953472 := by
  unfold tenth
  rw [roundDouble_eq (43250 - 3602879701896397 / 36028797018963968) 15 5944220993768653
    (by norm_num [abs_of_pos]) (by norm_num [abs_of_pos]) (by rw [abs_lt]; norm_num)]
  norm_num

theorem roundDouble_btc_gain :
    roundDouble (5944220993768653 / 137438953472) = 5944220993768653 / 137438953472 := by
  have e := roundDouble_exact 5944220993768653 (-37) (by norm_num)
  have a : (5944220993768653 / 137438953472 : ℚ)
      = (5944220993768653 : ℤ) * (2 : ℚ) ^ (-37 : ℤ) := by norm_num
  rw [a, e]

theorem roundDouble_btc_denominator :
    roundDouble (43250 - 5944220993768653 / 137438953472) = 13743895347 / 137438953472 := by
  have e := roundDouble_exact 13743895347 (-37) (by norm_num)
  have a : (43250 - 5944220993768653 / 137438953472 : ℚ)
      = (13743895347 : ℤ) * (2 : ℚ) ^ (-37 : ℤ) := by norm_num
  rw [a, e]
  norm_num

theorem double_value_tenthBtc : Double.calculatePortfolioValue tenthBtc btcMarket = 43250 := by
  have a0 : (0 : ℚ) + 43250 = 43250 := by norm_num
  unfold tenthBtc
  rw [double_value_single, double_holdingValue_btc, a0, roundDouble_43250]

theorem double_gainLoss_tenthBtc :
    Double.calculateTotalGainLoss tenthBtc btcMarket = 5944220993768653 / 137438953472 := by
  have a0 : (0 : ℚ) + 5944220993768653 / 137438953472 = 5944220993768653 / 137438953472 := by
    norm_num
  have a1 : tenth * 1 = tenth := by ring
  unfold tenthBtc
  rw [double_gainLoss_single]
  unfold Double.holdingGain
  rw [double_holdingValue_btc]
  simp only [fmul, fsub]
  rw [a1, roundDouble_tenth, roundDouble_btc_minus_tenth, a0, roundDouble_btc_gain]

theorem double_denominator_tenthBtc :
    fsub (Double.calculatePortfolioValue tenthBtc btcMarket)
        (Double.calculateTotalGainLoss tenthBtc btcMarket)
      = 13743895347 / 137438953472 := by
  rw [double_value_tenthBtc, double_gainLoss_tenthBtc]
  unfold fsub
  exact roundDouble_btc_denominator

theorem double_denominator_tenthBtc_unquoted :
    fsub (Double.calculatePortfolioValue tenthBtc MarketData.empty)
        (Double.calculateTotalGainLoss tenthBtc MarketData.empty) = tenth := by
  have a0 : (0 : ℚ) + 0 = 0 := by norm_num
  have a1 : tenth * 1 = tenth := by ring
  have a2 : (0 : ℚ) - tenth = -tenth := by ring
  have a3 : (0 : ℚ) + -tenth = -tenth := by ring
  have a4 : (0 : ℚ) - -tenth = tenth := by ring
  unfold tenthBtc
  rw [double_value_single, double_gainLoss_single]
  unfold Double.holdingGain
  rw [double_holdingValue_absent]
  simp only [fmul, fsub]
  rw [a0, roundDouble_zero, a1, roundDouble_tenth, a2, roundDouble_neg_tenth, a3,
    roundDouble_neg_tenth, a4, roundDouble_tenth]

theorem roundDouble_tiny : roundDouble (1 / 1099511627776) = 1 / 1099511627776 := by
  have e := roundDouble_exact 1 (-40) (by norm_num)
  have a : (1 / 1099511627776 : ℚ) = ((1 : ℤ) : ℚ) * (2 : ℚ) ^ (-40 : ℤ) := by norm_num
  rw [a, e]

theorem roundDouble_btc_minus_tiny : roundDouble (43250 - 1 / 1099511627776) = 43250 := by
  rw [roundDouble_eq (43250 - 1 / 1099511627776) 15 5944234737664000
    (by norm_num [abs_of_pos]) (by norm_num [abs_of_pos]) (by rw [abs_lt]; norm_num)]
  norm_num

theorem double_value_tinyBtc : Double.calculatePortfolioValue tinyBtc btcMarket = 43250 := by
  have a0 : (0 : ℚ) + 43250 = 43250 := by norm_num
  unfold tinyBtc
  rw [double_value_single, double_holdingValue_btc, a0, roundDouble_43250]

theorem double_gainLoss_tinyBtc : Double.calculateTotalGainLoss tinyBtc btcMarket = 43250 := by
  have a0 : (0 : ℚ) + 43250 = 43250 := by norm_num
  have a1 : (1 / 1099511627776 : ℚ) * 1 = 1 / 1099511627776 := by ring
  unfold tinyBtc
  rw [double_gainLoss_single]
  unfold Double.holdingGain
  rw [double_holdingValue_btc]
  simp only [fmul, fsub]
  rw [a1, roundDouble_tiny, roundDouble_btc_minus_tiny, a0, roundDouble_43250]

theorem double_percentage_tinyBtc :
    Double.gainLossPercentage tinyBtc btcMarket = JSNum.posInf := by
  have a0 : (43250 : ℚ) - 43250 = 0 := by norm_num
  unfold Double.gainLossPercentage
  simp only [double_value_tinyBtc, double_gainLoss_tinyBtc, Double.gainLossRatio, fsub]
  rw [a0, roundDouble_zero]
  norm_num [fdiv, JSNum.fmul, JSNum.toFixed]

/-- C19, as stated, fails. With the single holding BTC, quantity 1, bought at
0.1 and BTC quoted at 43250, portfolioValue − totalGainLoss is the double
0.09999999999854481 (13743895347 / 2^37), not the total cost 0.1; with no
quote at all the same expression is 0.1, so it depends on the quotes. With
BTC bought at 2^-40 the total cost is not zero and the portfolio value is
positive, yet portfolioValue − totalGainLoss is 0 and gainLossPercentage is
Infinity. -/
theorem double_denominator_not_cost :
    fsub (Double.calculatePortfolioValue tenthBtc btcMarket)
        (Double.calculateTotalGainLoss tenthBtc btcMarket) = 13743895347 / 137438953472
    ∧ (tenthBtc.map (fun h : Holding => h.buyPrice * h.quantity)).sum
      = 3602879701896397 / 36028797018963968
    ∧ (13743895347 / 137438953472 : ℚ) ≠ 3602879701896397 / 36028797018963968
    ∧ fsub (Double.calculatePortfolioValue tenthBtc MarketData.empty)
        (Double.calculateTotalGainLoss tenthBtc MarketData.empty)
      = 3602879701896397 / 36028797018963968
    ∧ 0 < Double.calculatePortfolioValue tinyBtc btcMarket
    ∧ (tinyBtc.map (fun h : Holding => h.buyPrice * h.quantity)).sum ≠ 0
    ∧ Double.gainLossPercentage tinyBtc btcMarket = JSNum.posInf := by
  refine ⟨double_denominator_tenthBtc, ?_, by norm_num, ?_, ?_, ?_, double_percentage_tinyBtc⟩
  · simp [tenthBtc, tenth]
  · rw [double_denominator_tenthBtc_unquoted]
    rfl
  · rw [double_value_tinyBtc]
    norm_num
  · simp [tinyBtc]

/-- C19, amended: portfolioValue − totalGainLoss, as the program computes it in
doubles, equals the total cost Σ buyPrice × quantity only up to rounding: for n
holdings it is within (n + 3) / 2^51 × Σ (|price × quantity| + |buyPrice ×
quantity|) of the total cost. When the portfolio value is positive and this
computed denominator is not zero, the percentage before rounding is
totalGainLoss divided by that denominator, times 100, and gainLossPercentage
is that number formatted by toFixed(2). -/
theorem double_denominator_bound (portfolio : List Holding) (marketData : MarketData)
    (hlen : portfolio.length < 2 ^ 32) :
    |fsub (Double.calculatePortfolioValue portfolio marketData)
          (Double.calculateTotalGainLoss portfolio marketData)
        - (portfolio.map (fun h : Holding => h.buyPrice * h.quantity)).sum|
        ≤ ((portfolio.length : ℚ) + 3) / 2 ^ 51
          * (portfolio.map (fun h : Holding =>
              |(match marketData h.symbol with
                | some q => q.price
                | none => 0) * h.quantity| + |h.buyPrice * h.quantity|)).sum
      ∧ (0 < Double.calculatePortfolioValue portfolio marketData →
          fsub (Double.calculatePortfolioValue portfolio marketData)
            (Double.calculateTotalGainLoss portfolio marketData) ≠ 0 →
          Double.gainLossRatio (Double.calculateTotalGainLoss portfolio marketData)
              (Double.calculatePortfolioValue portfolio marketData)
            = JSNum.fin (fmul (roundDouble
                (Double.calculateTotalGainLoss portfolio marketData
                  / fsub (Double.calculatePortfolioValue portfolio marketData)
                      (Double.calculateTotalGainLoss portfolio marketData))) 100)
          ∧ Double.gainLossPercentage portfolio marketData
            = JSNum.fin (roundFixed 2 (fmul (roundDouble
                (Double.calculateTotalGainLoss portfolio marketData
                  / fsub (Double.calculatePortfolioValue portfolio marketData)
                      (Double.calculateTotalGainLoss portfolio marketData))) 100))) := by
  constructor
  · have h := double_denominator_error portfolio marketData
    have hp := pow_sub_one_le (portfolio.length + 3) (by omega)
    have hA0 : 0 ≤ (portfolio.map (fun h : Holding =>
        |currentValue marketData h| + |h.buyPrice * h.quantity|)).sum := by
      apply List.sum_nonneg
      intro x hx
      rw [List.mem_map] at hx
      obtain ⟨h, _, rfl⟩ := hx
      positivity
    have h2 : 2 * ((1 + 1 / 2 ^ 53 : ℚ) ^ (portfolio.length + 3) - 1)
        ≤ ((portfolio.length : ℚ) + 3) / 2 ^ 51 := by
      push_cast at hp
      have : ((portfolio.length : ℚ) + 3) / 2 ^ 51
          = 2 * (2 * ((portfolio.length : ℚ) + 3) / 2 ^ 53) := by ring
      linarith
    exact le_trans h (mul_le_mul_of_nonneg_right h2 hA0)
  · intro hpos hne
    have hr : Double.gainLossRatio (Double.calculateTotalGainLoss portfolio marketData)
        (Double.calculatePortfolioValue portfolio marketData)
        = JSNum.fin (fmul (roundDouble
            (Double.calculateTotalGainLoss portfolio marketData
              / fsub (Double.calculatePortfolioValue portfolio marketData)
                  (Double.calculateTotalGainLoss portfolio marketData))) 100) := by
      unfold Double.gainLossRatio fdiv
      rw [if_pos hne]
      rfl
    refine ⟨hr, ?_⟩
    unfold Double.gainLossPercentage
    simp only [gt_iff_lt, hpos, if_true, hr]
    rfl

/-- C19, amended, at the single holding BTC, quantity 1, bought at 0.1, with
BTC quoted at 43250: the computed denominator 13743895347 / 2^37 is within
4 / 2^51 × (43250 + 0.1) of the total cost 0.1, and the percentage is finite. -/
theorem double_denominator_bound_witness :
    |(13743895347 / 137438953472 : ℚ) - 3602879701896397 / 36028797018963968|
        ≤ (1 + 3) / 2 ^ 51 * (43250 + 3602879701896397 / 36028797018963968)
      ∧ ∃ ratio : ℚ, Double.gainLossPercentage tenthBtc btcMarket
          = JSNum.fin (roundFixed 2 ratio) := by
  have h := double_denominator_bound tenthBtc btcMarket (by norm_num [tenthBtc])
  constructor
  · have h1 := h.1
    rw [double_denominator_tenthBtc] at h1
    simpa [tenthBtc, tenth, btcMarket, MarketData.set, abs_of_pos] using h1
  · exact ⟨_, (h.2 (by rw [double_value_tenthBtc]; norm_num)
      (by rw [double_denominator_tenthBtc]; norm_num)).2⟩

theorem double_holdingValue_btc_quantity (id : ℕ) (quantity buyPrice : ℚ) :
    Double.holdingValue btcMarket ⟨id, "BTC", "crypto", quantity, buyPrice⟩
      = roundDouble (43250 * quantity) := by
  simp [Double.holdingValue, btcMarket, priceField, MarketData.set, orZero, fmul]

theorem roundDouble_cancel_value :
    roundDouble (43250 * 18014398509481984) = 779122735535095808000 := by
  have e := roundDouble_exact 43250 54 (by norm_num)
  have a : (43250 * 18014398509481984 : ℚ) = ((43250 : ℤ) : ℚ) * (2 : ℚ) ^ (54 : ℤ) := by
    norm_num
  rw [a, e]
  norm_num

theorem roundDouble_cancel_value_neg :
    roundDouble (43250 * -18014398509481984) = -779122735535095808000 := by
  have e := roundDouble_exact (-43250) 54 (by norm_num)
  have a : (43250 * -18014398509481984 : ℚ) = ((-43250 : ℤ) : ℚ) * (2 : ℚ) ^ (54 : ℤ) := by
    norm_num
  rw [a, e]
  norm_num

theorem roundDouble_cancel_small : roundDouble (43250 * 3) = 129750 := by
  have a : (43250 * 3 : ℚ) = 129750 := by norm_num
  rw [a, roundDouble_129750]

theorem roundDouble_cancel_first :
    roundDouble (0 + 779122735535095808000) = 779122735535095808000 := by
  have e := roundDouble_exact 43250 54 (by norm_num)
  have a : (0 + 779122735535095808000 : ℚ) = ((43250 : ℤ) : ℚ) * (2 : ℚ) ^ (54 : ℤ) := by
    norm_num
  rw [a, e]
  norm_num

theorem roundDouble_cancel_second :
    roundDouble (779122735535095808000 + 129750) = 779122735535095939072 := by
  rw [roundDouble_eq (779122735535095808000 + 129750) 69 5944234737664001
    (by norm_num [abs_of_pos]) (by norm_num [abs_of_pos]) (by rw [abs_lt]; norm_num)]
  norm_num

theorem roundDouble_cancel_third :
    roundDouble (779122735535095939072 + -779122735535095808000) = 131072 := by
  have a : (779122735535095939072 + -779122735535095808000 : ℚ) = 131072 := by norm_num
  rw [a]
  exact roundDouble_ofNat 131072 (by norm_num)

theorem double_value_cancelBtc : Double.calculatePortfolioValue cancelBtc btcMarket = 131072 := by
  rw [double_value_eq_fold]
  simp only [cancelBtc, List.map_cons, List.map_nil, double_holdingValue_btc_quantity]
  rw [foldl_fadd_three, roundDouble_cancel_value, roundDouble_cancel_small,
    roundDouble_cancel_value_neg, roundDouble_cancel_first, roundDouble_cancel_second,
    roundDouble_cancel_third]

theorem double_value_cancelBtc_pos : 0 < Double.calculatePortfolioValue cancelBtc btcMarket := by
  rw [double_value_cancelBtc]
  norm_num

theorem double_share_cancel_first :
    Double.share cancelBtc btcMarket ⟨1, "BTC", "crypto", 18014398509481984, 40000⟩
      = 594423473766400000 := by
  have e1 := roundDouble_exact 43250 37 (by norm_num)
  have e2 := roundDouble_exact 4325000 37 (by norm_num)
  have a1 : (779122735535095808000 / 131072 : ℚ) = ((43250 : ℤ) : ℚ) * (2 : ℚ) ^ (37 : ℤ) := by norm_num
  have a2 : (((43250 : ℤ) : ℚ) * (2 : ℚ) ^ (37 : ℤ)) * 100
      = ((4325000 : ℤ) : ℚ) * (2 : ℚ) ^ (37 : ℤ) := by norm_num
  unfold Double.share
  rw [double_value_cancelBtc, double_holdingValue_btc_quantity, roundDouble_cancel_value,
    a1, e1, a2, e2]
  norm_num

theorem double_share_cancel_second :
    Double.share cancelBtc btcMarket ⟨2, "BTC", "crypto", 3, 40000⟩ = 1621875 / 16384 := by
  have e1 := roundDouble_exact 64875 (-16) (by norm_num)
  have e2 := roundDouble_exact 1621875 (-14) (by norm_num)
  have a1 : (129750 / 131072 : ℚ) = ((64875 : ℤ) : ℚ) * (2 : ℚ) ^ (-16 : ℤ) := by norm_num
  have a2 : (((64875 : ℤ) : ℚ) * (2 : ℚ) ^ (-16 : ℤ)) * 100
      = ((1621875 : ℤ) : ℚ) * (2 : ℚ) ^ (-14 : ℤ) := by norm_num
  unfold Double.share
  rw [double_value_cancelBtc, double_holdingValue_btc_quantity, roundDouble_cancel_small,
    a1, e1, a2, e2]
  norm_num

theorem double_share_cancel_third :
    Double.share cancelBtc btcMarket ⟨3, "BTC", "crypto", -18014398509481984, 40000⟩
      = -594423473766400000 := by
  have e1 := roundDouble_exact (-43250) 37 (by norm_num)
  have e2 := roundDouble_exact (-4325000) 37 (by norm_num)
  have a1 : (-779122735535095808000 / 131072 : ℚ) = ((-43250 : ℤ) : ℚ) * (2 : ℚ) ^ (37 : ℤ) := by norm_num
  have a2 : (((-43250 : ℤ) : ℚ) * (2 : ℚ) ^ (37 : ℤ)) * 100
      = ((-4325000 : ℤ) : ℚ) * (2 : ℚ) ^ (37 : ℤ) := by norm_num
  unfold Double.share
  rw [double_value_cancelBtc, double_holdingValue_btc_quantity, roundDouble_cancel_value_neg,
    a1, e1, a2, e2]
  norm_num

theorem double_shares_cancelBtc :
    cancelBtc.map (Double.share cancelBtc btcMarket)
      = [594423473766400000, 1621875 / 16384, -594423473766400000] := by
  simp only [cancelBtc, List.map_cons, List.map_nil]
  rw [← cancelBtc, double_share_cancel_first, double_share_cancel_second,
    double_share_cancel_third]

theorem roundFixed_one_cancel_big : roundFixed 1 594423473766400000 = 594423473766400000 := by
  have h : ⌊(594423473766400000 : ℚ) * 10 ^ 1 + 1 / 2⌋ = 5944234737664000000 := by
    rw [Int.floor_eq_iff]
    norm_num
  unfold roundFixed
  rw [if_neg (by norm_num), h]
  norm_num

theorem roundFixed_one_cancel_big_neg : roundFixed 1 (-594423473766400000) = -594423473766400000 := by
  have h : ⌊(-(-594423473766400000) : ℚ) * 10 ^ 1 + 1 / 2⌋ = 5944234737664000000 := by
    rw [Int.floor_eq_iff]
    norm_num
  unfold roundFixed
  rw [if_pos (by norm_num), h]
  norm_num

theorem roundFixed_one_cancel_small : roundFixed 1 (1621875 / 16384) = 99 := by
  have h : ⌊(1621875 / 16384 : ℚ) * 10 ^ 1 + 1 / 2⌋ = 990 := by
    rw [Int.floor_eq_iff]
    norm_num
  unfold roundFixed
  rw [if_neg (by norm_num), h]
  norm_num

theorem double_percentages_cancelBtc :
    (Double.portfolioDistribution cancelBtc btcMarket).map DistributionEntry.percentage
      = [(594423473766400000 : ℚ), 99, -594423473766400000].map JSNum.fin := by
  rw [double_percentages_of_pos cancelBtc btcMarket double_value_cancelBtc_pos]
  simp only [cancelBtc, List.map_cons, List.map_nil]
  rw [← cancelBtc, double_share_cancel_first, double_share_cancel_second,
    double_share_cancel_third, roundFixed_one_cancel_big, roundFixed_one_cancel_small,
    roundFixed_one_cancel_big_neg]

/-- C12, as stated, fails: for three BTC holdings of quantity 1 and a BTC quote
of 43250 the total value 129750 is positive, each share is the double
33.33333333333333 (2345624805922133 / 2^46), and the three shares sum to
7036874417766399 / 2^46 = 99.99999999999998..., not to 100, whether they are
added exactly or in doubles. With quantities 2^54, 3 and -2^54 the total value
in doubles is 131072, still positive, and the shares sum to 98.99.... -/
theorem double_shares_sum_not_exact :
    0 < Double.calculatePortfolioValue threeBtc btcMarket
    ∧ threeBtc.map (fun h : Holding =>
        Double.sharePercent (fmul (orZero (priceField btcMarket h.symbol)) h.quantity)
          (Double.calculatePortfolioValue threeBtc btcMarket))
      = [(2345624805922133 / 70368744177664 : ℚ), 2345624805922133 / 70368744177664,
          2345624805922133 / 70368744177664].map JSNum.fin
    ∧ [(2345624805922133 / 70368744177664 : ℚ), 2345624805922133 / 70368744177664,
          2345624805922133 / 70368744177664].sum = 7036874417766399 / 70368744177664
    ∧ [(2345624805922133 / 70368744177664 : ℚ), 2345624805922133 / 70368744177664,
          2345624805922133 / 70368744177664].foldl fadd 0
        = 7036874417766399 / 70368744177664
    ∧ (7036874417766399 / 70368744177664 : ℚ) ≠ 100
    ∧ 0 < Double.calculatePortfolioValue cancelBtc btcMarket
    ∧ cancelBtc.map (fun h : Holding =>
        Double.sharePercent (fmul (orZero (priceField btcMarket h.symbol)) h.quantity)
          (Double.calculatePortfolioValue cancelBtc btcMarket))
      = [(594423473766400000 : ℚ), 1621875 / 16384, -594423473766400000].map JSNum.fin
    ∧ [(594423473766400000 : ℚ), 1621875 / 16384, -594423473766400000].sum = 1621875 / 16384
    ∧ (1621875 / 16384 : ℚ) < 99 := by
  refine ⟨double_value_three_btc_pos, ?_, by norm_num, three_shares_fadd, by norm_num,
    double_value_cancelBtc_pos, ?_, by norm_num, by norm_num⟩
  · have hs : ∀ h : Holding,
        Double.sharePercent (fmul (orZero (priceField btcMarket h.symbol)) h.quantity)
          (Double.calculatePortfolioValue threeBtc btcMarket)
        = JSNum.fin (Double.share threeBtc btcMarket h) :=
      fun h => double_share_fin threeBtc btcMarket h double_value_three_btc_pos
    simp only [hs]
    simp only [threeBtc, List.map_cons, List.map_nil]
    rw [← threeBtc]
    simp only [double_share_three_btc]
  · have hs : ∀ h : Holding,
        Double.sharePercent (fmul (orZero (priceField btcMarket h.symbol)) h.quantity)
          (Double.calculatePortfolioValue cancelBtc btcMarket)
        = JSNum.fin (Double.share cancelBtc btcMarket h) :=
      fun h => double_share_fin cancelBtc btcMarket h double_value_cancelBtc_pos
    simp only [hs]
    rw [← double_shares_cancelBtc, List.map_map]
    rfl

/-- C11, as stated, fails: with six BTC holdings of quantity 1 and a BTC quote
of 43250 the total value is positive, every share is the double
16.666666666666664 and is shown as 16.7, and the six percentages sum to 100.2,
which is 0.2 away from 100. With quantities 2^54, 3 and -2^54 the total value
in doubles is 131072, still positive, and the three percentages sum to 99. -/
theorem double_percentages_sum_off_by_two_tenths :
    0 < Double.calculatePortfolioValue sixBtc btcMarket
    ∧ (Double.portfolioDistribution sixBtc btcMarket).map DistributionEntry.percentage
      = [(167 / 10 : ℚ), 167 / 10, 167 / 10, 167 / 10, 167 / 10, 167 / 10].map JSNum.fin
    ∧ [(167 / 10 : ℚ), 167 / 10, 167 / 10, 167 / 10, 167 / 10, 167 / 10].sum = 501 / 5
    ∧ ¬ |(501 / 5 : ℚ) - 100| ≤ 1 / 10
    ∧ 0 < Double.calculatePortfolioValue cancelBtc btcMarket
    ∧ (Double.portfolioDistribution cancelBtc btcMarket).map DistributionEntry.percentage
      = [(594423473766400000 : ℚ), 99, -594423473766400000].map JSNum.fin
    ∧ [(594423473766400000 : ℚ), 99, -594423473766400000].sum = 99
    ∧ ¬ |(99 : ℚ) - 100| ≤ 1 / 10 := by
  refine ⟨double_value_six_btc_pos, ?_, by norm_num, by norm_num [abs_le],
    double_value_cancelBtc_pos, double_percentages_cancelBtc, by norm_num,
    by norm_num [abs_le]⟩
  rw [double_percentages_of_pos sixBtc btcMarket double_value_six_btc_pos]
  simp only [sixBtc, List.map_cons, List.map_nil]
  rw [← sixBtc]
  simp only [double_share_six_btc, roundFixed_one_of_sixth]

/-! ### Division by zero in doubles

The results at a zero cost basis do not depend on rounding: the double reading
gives the same `Infinity` as the exact reading. -/

theorem double_value_zero_cost :
    Double.calculatePortfolioValue [⟨1, "BTC", "crypto", 1, 0⟩] btcMarket = 43250 := by
  have a0 : (0 : ℚ) + 43250 = 43250 := by norm_num
  rw [double_value_single, double_holdingValue_btc, a0, roundDouble_43250]

theorem double_gainLoss_zero_cost :
    Double.calculateTotalGainLoss [⟨1, "BTC", "crypto", 1, 0⟩] btcMarket = 43250 := by
  have a0 : (0 : ℚ) + 43250 = 43250 := by norm_num
  have a1 : (0 : ℚ) * 1 = 0 := by ring
  have a2 : (43250 : ℚ) - 0 = 43250 := by ring
  rw [double_gainLoss_single]
  unfold Double.holdingGain
  rw [double_holdingValue_btc]
  simp only [fmul, fsub]
  rw [a1, roundDouble_zero, a2, roundDouble_43250, a0, roundDouble_43250]

/-- The double reading of line 279 at the single holding BTC, quantity 1,
bought at price 0, with BTC quoted at 43250: the denominator is 0 and
gainLossPercentage is Infinity, as in the exact reading. -/
theorem double_gainLossPercentage_zero_cost :
    Double.gainLossPercentage [⟨1, "BTC", "crypto", 1, 0⟩] btcMarket = JSNum.posInf := by
  have a0 : (43250 : ℚ) - 43250 = 0 := by norm_num
  unfold Double.gainLossPercentage
  simp only [double_value_zero_cost, double_gainLoss_zero_cost, Double.gainLossRatio, fsub]
  rw [a0, roundDouble_zero]
  norm_num [fdiv, JSNum.fmul, JSNum.toFixed]

/-- The double reading of lines 476-479 at the same holding: the cost basis is
0 and the row shows the percentage Infinity, as in the exact reading. -/
theorem double_holdingRow_zero_cost :
    Double.holdingRow btcMarket ⟨1, "BTC", "crypto", 1, 0⟩
      = some ⟨43250, 0, 43250, JSNum.posInf⟩ := by
  have a0 : (43250 : ℚ) * 1 = 43250 := by ring
  have a1 : (0 : ℚ) * 1 = 0 := by ring
  have a2 : (43250 : ℚ) - 0 = 43250 := by ring
  have hq : btcMarket "BTC" = some ⟨43250, 5 / 2, some 850000000000, "crypto", "Bitcoin"⟩ := by
    simp [btcMarket, MarketData.set]
  unfold Double.holdingRow
  simp only [hq, fmul, fsub, Double.rowRatio]
  rw [a0, a1, roundDouble_zero, roundDouble_43250, a2, roundDouble_43250]
  norm_num [fdiv, JSNum.fmul, JSNum.toFixed]

end Portfolio
